import Mathlib

/-!
Verification of the Bangalore-Property listing pipeline (src/scraper/scraper.py)
against its natural-language specification.

Shallow embedding conventions:
* Python strings are Lean `String`s; most machinery works on `List Char`.
* Python floats are modelled as exact rationals (`ℚ`); every value the claims
  touch is an exact decimal, so no rounding behaviour is observable.
* `re.search` over the parser's concrete patterns is embedded as a leftmost
  scan (`searchFrom`) with maximal-munch runs for `[\d.]+` and `\s*`: the
  character classes of adjacent pattern pieces are disjoint (digits/dots vs
  whitespace vs literal letters), so backtracking inside a run can never
  succeed and maximal munch is exact.  Ordered alternation `(?:L|Lakh|Lac)`
  is embedded with explicit ordered backtracking (`tryAlts`).
* Fallible Python code (`float(...)`, `int(...)` raising ValueError) returns
  `Option`.
-/

/- Batteries marks the `Rat` arithmetic operations `@[irreducible]`; restore
elaborator visibility so that `decide` can evaluate exact rational arithmetic
on concrete inputs.  Kernel-level semantics are unchanged. -/
attribute [local semireducible] Rat.mul Rat.add Rat.sub Rat.inv Rat.ofScientific

/-- Python `str.isspace`-style whitespace, as matched by `\s` and `strip()`. -/
def isWS (c : Char) : Bool :=
  c == ' ' || c == '\t' || c == '\n' || c == '\r' || c == '\x0b' || c == '\x0c'

/-- Character class `[\d.]` of the price regexes. -/
def isDD (c : Char) : Bool := c.isDigit || c == '.'

/-- Longest run of characters satisfying `p` at the head (maximal munch). -/
def takeRun (p : Char → Bool) : List Char → List Char
  | [] => []
  | c :: rest => if p c then c :: takeRun p rest else []

/-- Remainder after the longest run of characters satisfying `p`. -/
def dropRun (p : Char → Bool) : List Char → List Char
  | [] => []
  | c :: rest => if p c then dropRun p rest else c :: rest

/-- Regex `\s*`: skip any whitespace. -/
def skipWS (cs : List Char) : List Char := dropRun isWS cs

/-- Python `str.strip()`: remove leading and trailing whitespace. -/
def stripL (l : List Char) : List Char :=
  ((dropRun isWS l).reverse |> dropRun isWS).reverse

/-- Case-insensitive literal match at the head; returns the rest on success. -/
def dropLitCI : List Char → List Char → Option (List Char)
  | [], cs => some cs
  | _ :: _, [] => none
  | p :: ps, c :: cs => if c.toLower == p.toLower then dropLitCI ps cs else none

/-- Case-sensitive literal match at the head (for Python's `in` on lowered text). -/
def litHeadEq : List Char → List Char → Bool
  | [], _ => true
  | _ :: _, [] => false
  | p :: ps, c :: cs => p == c && litHeadEq ps cs

/-- Python `pat in hay` (exact substring scan). -/
def containsL (pat : List Char) : List Char → Bool
  | [] => litHeadEq pat []
  | c :: rest => litHeadEq pat (c :: rest) || containsL pat rest

/-- Numeric value of a digit string (most significant digit first). -/
def digitsVal : List Char → ℕ :=
  List.foldl (fun a c => 10 * a + (c.toNat - 48)) 0

/-- Python `float()` on a `[\d.]+` regex group: at most one dot and at least
one digit, else ValueError (`none`).  Exact rational semantics. -/
def floatOfL (g : List Char) : Option ℚ :=
  if (g.filter (fun c => c == '.')).length == 0 then
    if g ≠ [] ∧ g.all Char.isDigit then some (digitsVal g) else none
  else if (g.filter (fun c => c == '.')).length == 1 then
    (if (takeRun (fun c => c != '.') g).all Char.isDigit ∧
        (dropRun (fun c => c != '.') g).tail.all Char.isDigit ∧
        ((takeRun (fun c => c != '.') g) ≠ [] ∨ (dropRun (fun c => c != '.') g).tail ≠ []) then
      some ((digitsVal (takeRun (fun c => c != '.') g) : ℚ) +
        (digitsVal (dropRun (fun c => c != '.') g).tail : ℚ) /
          (10 : ℚ) ^ ((dropRun (fun c => c != '.') g).tail.length))
    else none)
  else none

/-- Python `re.search` semantics: try a match at each start position, leftmost wins. -/
def searchFrom (m : List Char → Option β) : List Char → Option β
  | [] => m []
  | c :: rest =>
    match m (c :: rest) with
    | some x => some x
    | none => searchFrom m rest

/-- A match that begins with a nonempty `([\d.]+)` group, then continues with
`rm` on the remainder. -/
def numFirst (rm : List Char → Option β) (cs : List Char) : Option (List Char × β) :=
  if takeRun isDD cs = [] then none
  else (rm (dropRun isDD cs)).map (fun b => (takeRun isDD cs, b))

/-- Ordered regex alternation with backtracking into the continuation. -/
def tryAlts (alts : List (List Char)) (cs : List Char) (k : List Char → Option β) : Option β :=
  match alts with
  | [] => none
  | a :: rest =>
    match dropLitCI a cs with
    | some cs' =>
      match k cs' with
      | some x => some x
      | none => tryAlts rest cs k
    | none => tryAlts rest cs k

/-- Alternatives of `(?:L|Lakh|Lac)` in regex order. -/
def unitAltsL : List (List Char) := [['L'], ['L', 'a', 'k', 'h'], ['L', 'a', 'c']]

/-- Alternatives of `(?:lacs?|lakhs?|lac)` in regex order (greedy optional `s`). -/
def lacAlts : List (List Char) :=
  [['l', 'a', 'c', 's'], ['l', 'a', 'c'], ['l', 'a', 'k', 'h', 's'], ['l', 'a', 'k', 'h'], ['l', 'a', 'c']]

/-- The `\s*Cr` tail shared by patterns 1, 3, 5 and 6. -/
def crAfterWS (r : List Char) : Option Unit :=
  (dropLitCI ['C', 'r'] (skipWS r)).map (fun _ => ())

/-- The `\s*(?:L|Lakh|Lac)` tail of patterns 2 and 6. -/
def lUnitAfterWS (r : List Char) : Option Unit :=
  tryAlts unitAltsL (skipWS r) (fun _ => some ())

/-- Pattern 1 after the first group: `\s*-\s*([\d.]+)\s*Cr`. -/
def p1Rest (r : List Char) : Option (List Char) :=
  match skipWS r with
  | '-' :: r3 => (numFirst crAfterWS (skipWS r3)).map (fun gb => gb.1)
  | _ => none

/-- Pattern 2 after the first unit: `\s*-\s*([\d.]+)\s*(?:L|Lakh|Lac)`. -/
def p2AfterUnit (r : List Char) : Option (List Char) :=
  match skipWS r with
  | '-' :: r3 => (numFirst lUnitAfterWS (skipWS r3)).map (fun gb => gb.1)
  | _ => none

/-- Pattern 2 after the first group: `\s*(?:L|Lakh|Lac)` then `p2AfterUnit`. -/
def p2Rest (r : List Char) : Option (List Char) :=
  tryAlts unitAltsL (skipWS r) p2AfterUnit

/-- Pattern 3 after the first unit: `\s*-\s*([\d.]+)\s*Cr`. -/
def p3AfterUnit (r : List Char) : Option (List Char) :=
  match skipWS r with
  | '-' :: r3 => (numFirst crAfterWS (skipWS r3)).map (fun gb => gb.1)
  | _ => none

/-- Pattern 3 after the first group: `\s*(?:L|Lakh|Lac)` then `p3AfterUnit`. -/
def p3Rest (r : List Char) : Option (List Char) :=
  tryAlts unitAltsL (skipWS r) p3AfterUnit

/-- Pattern 4 after the first group: `\s*(?:lacs?|lakhs?|lac)\s+onwards?`
(the optional trailing `s` never affects success or the group). -/
def p4Rest (r : List Char) : Option Unit :=
  tryAlts lacAlts (skipWS r) (fun r' =>
    match r' with
    | c :: r'' =>
      if isWS c then (dropLitCI ['o', 'n', 'w', 'a', 'r', 'd'] (skipWS r'')).map (fun _ => ())
      else none
    | [] => none)

/-- Pattern 5 core: `(?:₹\s*)?([\d.]+)\s*Cr` (a skipped `₹` could never start
the `[\d.]+` group, so the optional is deterministic). -/
def p5Core (cs : List Char) : Option (List Char) :=
  match cs with
  | '₹' :: r => (numFirst crAfterWS (skipWS r)).map (fun gb => gb.1)
  | _ => (numFirst crAfterWS cs).map (fun gb => gb.1)

/-- Pattern 5: `(?:Starting\s+)?(?:₹\s*)?([\d.]+)\s*Cr\s*(?:onwards)?`; the
optional prefix backtracks to `p5Core` at the same position, the optional
trailing `onwards` never affects success or the group. -/
def p5MatchAt (cs : List Char) : Option (List Char) :=
  match dropLitCI ['s', 't', 'a', 'r', 't', 'i', 'n', 'g'] cs with
  | some (c :: r') =>
    if isWS c then
      match p5Core (skipWS r') with
      | some g => some g
      | none => p5Core cs
    else p5Core cs
  | some [] => p5Core cs
  | none => p5Core cs

/-- Preprocessing `text.replace(",", "").replace("₹", "").strip()` of `parse_price_range`. -/
def rawOf (text : String) : List Char :=
  stripL ((text.data.filter (fun c => c != ',')).filter (fun c => c != '₹'))

/-- Branch 1: explicit `"X - Y Cr"` range, sane iff `low <= high < 1000`. -/
def branch1 (raw : List Char) : Option (Option ℚ × Option ℚ) :=
  match searchFrom (numFirst p1Rest) raw with
  | some (g1, g2) =>
    match floatOfL g1, floatOfL g2 with
    | some low, some high =>
      if low ≤ high ∧ high < 1000 then some (some (low * 100), some (high * 100)) else none
    | _, _ => none
  | none => none

/-- Branch 2: `"X L - Y L"` range, sane iff `low <= high < 10000`. -/
def branch2 (raw : List Char) : Option (Option ℚ × Option ℚ) :=
  match searchFrom (numFirst (fun r => p2Rest r)) raw with
  | some (g1, g2) =>
    match floatOfL g1, floatOfL g2 with
    | some low, some high =>
      if low ≤ high ∧ high < 10000 then some (some low, some high) else none
    | _, _ => none
  | none => none

/-- Branch 3: mixed `"X L - Y Cr"` range, accepted iff `low <= high`. -/
def branch3 (raw : List Char) : Option (Option ℚ × Option ℚ) :=
  match searchFrom (numFirst (fun r => p3Rest r)) raw with
  | some (g1, g2) =>
    match floatOfL g1, floatOfL g2 with
    | some low, some high2 =>
      if low ≤ high2 * 100 then some (some low, some (high2 * 100)) else none
    | _, _ => none
  | none => none

/-- Branch 4: `"X lacs onwards"` minimum-only value, sane iff `n < 10000`. -/
def branch4 (raw : List Char) : Option (Option ℚ × Option ℚ) :=
  match searchFrom (numFirst p4Rest) raw with
  | some (g1, _) =>
    match floatOfL g1 with
    | some n => if n < 10000 then some (some n, none) else none
    | none => none
  | none => none

/-- Branch 5: `"Starting ₹ X Cr onwards"` minimum-only value, sane iff
`n < 10000` after conversion to lakhs. -/
def branch5 (raw : List Char) : Option (Option ℚ × Option ℚ) :=
  match searchFrom p5MatchAt raw with
  | some g =>
    match floatOfL g with
    | some n => if n * 100 < 10000 then some (some (n * 100), none) else none
    | none => none
  | none => none

/-- Branch 6: bare single value.  The `Cr` arm has no sanity bound in the
source; a `float` ValueError in it also skips the `L` arm (one `try` block). -/
def branch6 (raw : List Char) : Option (Option ℚ × Option ℚ) :=
  match searchFrom (numFirst crAfterWS) raw with
  | some (g, _) =>
    match floatOfL g with
    | some n => some (some (n * 100), some (n * 100))
    | none => none
  | none =>
    match searchFrom (numFirst lUnitAfterWS) raw with
    | some (g, _) =>
      match floatOfL g with
      | some n => if n < 10000 then some (some n, some n) else none
      | none => none
    | none => none

/-- Embeds `parse_price_range` (scraper.py:196-263): six regex branches in strict
priority order, first success returns; `(None, None)` when all fail. -/
def parse_price_range (text : String) : Option ℚ × Option ℚ :=
  if text = "" then (none, none)
  else
    match branch1 (rawOf text) with
    | some r => r
    | none =>
      match branch2 (rawOf text) with
      | some r => r
      | none =>
        match branch3 (rawOf text) with
        | some r => r
        | none =>
          match branch4 (rawOf text) with
          | some r => r
          | none =>
            match branch5 (rawOf text) with
            | some r => r
            | none =>
              match branch6 (rawOf text) with
              | some r => r
              | none => (none, none)

/-! ## Display formatting, junk filter, normalizer -/

/-- Digit character for a value in `[0, 9]`. -/
def digitChar10 (n : ℕ) : Char := Char.ofNat (48 + n)

/-- Worker for `natRepr`; the fuel bounds the number of digits. -/
def natReprAux (fuel : ℕ) (n : ℕ) : List Char :=
  match fuel with
  | 0 => []
  | fuel + 1 =>
    if n < 10 then [digitChar10 n]
    else natReprAux fuel (n / 10) ++ [digitChar10 (n % 10)]

/-- Decimal representation of a natural number, most significant digit first
(`n + 1` units of fuel always suffice since `n / 10 < n`). -/
def natRepr (n : ℕ) : List Char := natReprAux (n + 1) n

/-- Python `f"{q:.2f}"` for the nonnegative exact decimals the pipeline
produces: round to hundredths and print with exactly two decimals. -/
def fmt2L (q : ℚ) : List Char :=
  natRepr ((Rat.floor (q * 100 + 1 / 2)).toNat / 100) ++
    ('.' :: natRepr ((Rat.floor (q * 100 + 1 / 2)).toNat % 100 / 10) ++
      [digitChar10 ((Rat.floor (q * 100 + 1 / 2)).toNat % 10)])

/-- Render a price pair: crore notation when `max_p >= 100`, else lakh. -/
def priceRender (mn mx : ℚ) : String :=
  if 100 ≤ mx then
    String.mk ('₹' :: ' ' :: (fmt2L (mn / 100) ++ (' ' :: '-' :: ' ' :: fmt2L (mx / 100)) ++ (' ' :: 'C' :: 'r' :: [])))
  else
    String.mk ('₹' :: ' ' :: (fmt2L mn ++ (' ' :: '-' :: ' ' :: fmt2L mx) ++ (' ' :: 'L' :: [])))

/-- Embeds `_format_price_display` (scraper.py:295-304): a missing end of the range
is substituted with the other end; empty string when both are missing. -/
def _format_price_display (min_p max_p : Option ℚ) : String :=
  match min_p, max_p with
  | none, none => ""
  | some mn, none => priceRender mn mn
  | none, some mx => priceRender mx mx
  | some mn, some mx => priceRender mn mx

/-- Embeds `JUNK_PROJECT_NAMES` (scraper.py:42-55): page titles and nav labels. -/
def JUNK_PROJECT_NAMES : List String :=
  ["new launch projects in bangalore",
   "under construction projects in bangalore",
   "ready to move projects in bangalore",
   "new projects in bangalore",
   "projects in bangalore",
   "upcoming projects in bangalore",
   "new projects by reputed bangalore builders in bangalore",
   "ready to move & pre launch",
   "list", "map", "filter your search", "reset", "sort by",
   "find other projects matching your search nearby",
   "quick links",
   "bangalore"]

/-- Python `s.strip()` on `String`. -/
def stripS (s : String) : String := String.mk (stripL s.data)

/-- Python `s.lower()` on `String` (ASCII-adequate for this pipeline). -/
def toLowerS (s : String) : String := String.mk (s.data.map Char.toLower)

/-- The key `name.strip().lower()[:120]` of `_is_junk_project_name`. -/
def junkKey (name : String) : List Char :=
  ((stripL name.data).map Char.toLower).take 120

/-- Embeds `_is_junk_project_name` (scraper.py:279-292).  The two containment tests
are nested in the source (`if A: if B: return True`); falling through the
inner test continues to the "by reputed" test, which the chain below mirrors. -/
def _is_junk_project_name (name : String) : Bool :=
  if name = "" ∨ name.length < 4 then true
  else
    if String.mk (junkKey name) ∈ JUNK_PROJECT_NAMES then true
    else
      if (containsL ("projects in bangalore").data (junkKey name)
          || (containsL ("projects in ").data (junkKey name)
              && containsL ("bangalore").data (junkKey name)))
          && (litHeadEq ("new ").data (junkKey name)
              || litHeadEq ("under ").data (junkKey name)
              || litHeadEq ("ready ").data (junkKey name)
              || litHeadEq ("upcoming ").data (junkKey name)) then true
      else
        containsL ("by reputed").data (junkKey name)
          && containsL ("builders").data (junkKey name)
          && containsL ("bangalore").data (junkKey name)

/-- Embeds `PROPERTY_JUNK_SUBSTRINGS` (scraper.py:315-318), in tuple order. -/
def PROPERTY_JUNK_SUBSTRINGS : List String :=
  ["filter your search", "sort by", "reset", "list", "map", "quick links",
   "find other projects", "next >>", "<< prev", "bangalore, india", "property list"]

/-- Case-insensitive literal prefix test (for `re.sub(re.escape(junk), ..., re.I)`). -/
def litHeadCI : List Char → List Char → Bool
  | [], _ => true
  | _ :: _, [] => false
  | p :: ps, c :: cs => c.toLower == p.toLower && litHeadCI ps cs

/-- Worker for `replaceCI`; the fuel bounds the number of scan steps (each
step consumes at least one character of the text). -/
def replaceCIAux (pat : List Char) : ℕ → List Char → List Char
  | 0, _ => []
  | _, [] => []
  | fuel + 1, c :: rest =>
    if pat ≠ [] ∧ litHeadCI pat (c :: rest) = true then
      ' ' :: replaceCIAux pat fuel (rest.drop (pat.length - 1))
    else c :: replaceCIAux pat fuel rest

/-- Python `re.sub(re.escape(pat), " ", t, flags=re.I)`: replace each non-overlapping
case-insensitive occurrence, scanning left to right, with a single space. -/
def replaceCI (pat : List Char) (l : List Char) : List Char :=
  replaceCIAux pat l.length l

/-- Worker for `collapseL`: `inRun` records whether the previous character
was part of a whitespace run already emitted as one space. -/
def collapseGo (inRun : Bool) : List Char → List Char
  | [] => []
  | c :: rest =>
    if isWS c then
      if inRun then collapseGo true rest else ' ' :: collapseGo true rest
    else c :: collapseGo false rest

/-- Python `re.sub(r"\s+", " ", t)`: collapse every whitespace run to one space. -/
def collapseL (l : List Char) : List Char := collapseGo false l

/-- One iteration of the junk-scrub loop of `_normalize_str`: when the junk
substring occurs in the lowered text, replace it, re-collapse and re-strip. -/
def scrubOne (t : List Char) (junk : String) : List Char :=
  if containsL junk.data (t.map Char.toLower) = true then
    stripL (collapseL (replaceCI junk.data t))
  else t

/-- Embeds `_normalize_str` (scraper.py:327-338): trim, collapse whitespace, scrub
UI-noise substrings in tuple order, and cap the length.  A missing value
(Python `None` / non-string) is the `none` case. -/
def _normalize_str (s : Option String) (maxLen : ℕ) : String :=
  match s with
  | none => ""
  | some s0 =>
    if collapseL (stripL s0.data) = [] then ""
    else String.mk ((PROPERTY_JUNK_SUBSTRINGS.foldl scrubOne (collapseL (stripL s0.data))).take maxLen)

/-! ## Record model and the Verifier -/

/-- A raw price field: absent, numeric, or a string to be `float()`ed. -/
inductive NumVal where
  | none
  | num (q : ℚ)
  | str (s : String)
deriving DecidableEq, Repr

/-- A raw `handover_year` field: absent, integer, or a string to be `int()`ed. -/
inductive HYVal where
  | none
  | int (n : ℤ)
  | str (s : String)
deriving DecidableEq, Repr

/-- A raw scraped record (the Python dict fed to the Verifier).  Text fields
are `Option String` (`record.get(...)`); numeric fields carry the raw shapes
the Verifier coerces. -/
structure InputRecord where
  url : Option String := Option.none
  name : Option String := Option.none
  builder : Option String := Option.none
  locality : Option String := Option.none
  handover : Option String := Option.none
  bhk : Option String := Option.none
  price_display : Option String := Option.none
  status : Option String := Option.none
  source : Option String := Option.none
  id : Option String := Option.none
  price_min_lakhs : NumVal := NumVal.none
  price_max_lakhs : NumVal := NumVal.none
  handover_year : HYVal := HYVal.none
deriving DecidableEq, Repr

/-- The cleaned record returned by the Verifier (scraper.py:399-413). -/
structure CleanRecord where
  id : String
  source : String
  status : String
  name : String
  builder : String
  locality : String
  price_min_lakhs : Option ℚ
  price_max_lakhs : Option ℚ
  price_display : String
  handover : String
  handover_year : Option ℤ
  bhk : String
  url : String
deriving DecidableEq, Repr

/-- Python `float()` on a stripped decimal string with optional sign
(exponent forms are not used by this pipeline). -/
def pyFloat (s : String) : Option ℚ :=
  match stripL s.data with
  | '-' :: ds => (floatOfL ds).map (fun q => -q)
  | '+' :: ds => floatOfL ds
  | ds => floatOfL ds

/-- One price coercion: `none` means the `try` block raised. -/
def numCoerce : NumVal → Option (Option ℚ)
  | NumVal.none => some Option.none
  | NumVal.num q => some (some q)
  | NumVal.str s => if s = "" then some Option.none else (pyFloat s).map some

/-- Lines 365-373: coerce both price fields inside one `try`; an exception
anywhere nulls both. -/
def coercePrices (v1 v2 : NumVal) : Option ℚ × Option ℚ :=
  match numCoerce v1 with
  | Option.none => (Option.none, Option.none)
  | some o1 =>
    match numCoerce v2 with
    | Option.none => (Option.none, Option.none)
    | some o2 => (o1, o2)

def PRICE_MAX_LAKHS : ℚ := 50000
def PRICE_MIN_LAKHS : ℚ := 1 / 10
def HANDOVER_YEAR_MIN : ℤ := 2020
def HANDOVER_YEAR_MAX : ℤ := 2040

/-- Lines 374-377: null a price outside `[PRICE_MIN_LAKHS, PRICE_MAX_LAKHS]`. -/
def boundCheck (o : Option ℚ) : Option ℚ :=
  match o with
  | some a => if a < PRICE_MIN_LAKHS ∨ a > PRICE_MAX_LAKHS then Option.none else some a
  | Option.none => Option.none

/-- Lines 374-379: bound-check each price individually, then swap an inverted
pair. -/
def cleanPrices (pmin pmax : Option ℚ) : Option ℚ × Option ℚ :=
  match boundCheck pmin, boundCheck pmax with
  | some a, some b => if a > b then (some b, some a) else (some a, some b)
  | p1, p2 => (p1, p2)

/-- The final numeric price pair of the Verifier for a raw record. -/
def pricesOf (rec : InputRecord) : Option ℚ × Option ℚ :=
  cleanPrices (coercePrices rec.price_min_lakhs rec.price_max_lakhs).1
    (coercePrices rec.price_min_lakhs rec.price_max_lakhs).2

/-- Lines 362, 380-381: `price_display` is recomputed from the numeric pair
when either price is present, else it is the normalized upstream string. -/
def displayOf (rec : InputRecord) : String :=
  if (pricesOf rec).1 ≠ Option.none ∨ (pricesOf rec).2 ≠ Option.none then
    _format_price_display (pricesOf rec).1 (pricesOf rec).2
  else _normalize_str rec.price_display 80

/-- Python `int()` on a stripped decimal string with optional sign. -/
def intOfStr (s : String) : Option ℤ :=
  match stripL s.data with
  | '-' :: ds => if ds ≠ [] ∧ ds.all Char.isDigit then some (-(digitsVal ds : ℤ)) else Option.none
  | '+' :: ds => if ds ≠ [] ∧ ds.all Char.isDigit then some (digitsVal ds : ℤ) else Option.none
  | ds => if ds ≠ [] ∧ ds.all Char.isDigit then some (digitsVal ds : ℤ) else Option.none

/-- Python `int(hy)`: identity on an integer, parse on a string; `none`
means the value was absent (the conversion is skipped). -/
def pyIntCoerce : HYVal → Option ℤ
  | HYVal.none => Option.none
  | HYVal.int n => some n
  | HYVal.str s => intOfStr s

/-- Lines 384-391: coerce `handover_year` to an integer in
`[HANDOVER_YEAR_MIN, HANDOVER_YEAR_MAX]` or null. -/
def cleanYear (v : HYVal) : Option ℤ :=
  match pyIntCoerce v with
  | some n => if n < HANDOVER_YEAR_MIN ∨ n > HANDOVER_YEAR_MAX then Option.none else some n
  | Option.none => Option.none

/-- Lines 393-395: coerce `status` to the closed enum, default `new_launch`. -/
def cleanStatusF (o : Option String) : String :=
  if toLowerS (stripS (o.getD "")) = "new_launch" ∨
      toLowerS (stripS (o.getD "")) = "under_construction" ∨
      toLowerS (stripS (o.getD "")) = "ready_to_move" then
    toLowerS (stripS (o.getD ""))
  else "new_launch"

/-- Line 396: default `source` to `"99acres"`. -/
def cleanSourceF (o : Option String) : String :=
  if stripS (o.getD "") = "" then "99acres" else stripS (o.getD "")

/-- Python `s[-14:]`. -/
def last14 (l : List Char) : List Char := l.drop (l.length - 14)

/-- Line 397: derive `id` from the alphanumeric tail of `url` when missing. -/
def cleanIdF (o : Option String) (url : String) : String :=
  if stripS (o.getD "") = "" then String.mk (last14 (url.data.filter Char.isAlphanum))
  else stripS (o.getD "")

/-- Line 351: `url = (record.get("url") or "").strip()`. -/
def urlOf (rec : InputRecord) : String := stripS (rec.url.getD "")

/-- Embeds `verify_and_clean_property` after the url gate (scraper.py:355-413). -/
def verifyRest (rec : InputRecord) (url : String) : Option CleanRecord :=
  if _normalize_str rec.name 200 = "" ∨ _is_junk_project_name (_normalize_str rec.name 200) = true then
    Option.none
  else
    some {
      id := cleanIdF rec.id url
      source := cleanSourceF rec.source
      status := cleanStatusF rec.status
      name := _normalize_str rec.name 200
      builder := _normalize_str rec.builder 100
      locality := _normalize_str rec.locality 150
      price_min_lakhs := (pricesOf rec).1
      price_max_lakhs := (pricesOf rec).2
      price_display := displayOf rec
      handover := _normalize_str rec.handover 50
      handover_year := cleanYear rec.handover_year
      bhk := _normalize_str rec.bhk 30
      url := url }

/-- Embeds `verify_and_clean_property` (scraper.py:341-413): reject when `url` is
empty or lacks `"http"`, else normalize and validate every field. -/
def verify_and_clean_property (rec : InputRecord) : Option CleanRecord :=
  if urlOf rec = "" ∨ containsL ("http").data (urlOf rec).data = false then Option.none
  else verifyRest rec (urlOf rec)

/-- A cleaned numeric price as the raw dict shape it round-trips to. -/
def numOfOpt : Option ℚ → NumVal
  | some q => NumVal.num q
  | Option.none => NumVal.none

/-- A cleaned `handover_year` as the raw dict shape it round-trips to. -/
def hyOfOpt : Option ℤ → HYVal
  | some n => HYVal.int n
  | Option.none => HYVal.none

/-- Re-inject a cleaned record as Verifier input (dict round-trip). -/
def toInput (r : CleanRecord) : InputRecord :=
  { url := some r.url
    name := some r.name
    builder := some r.builder
    locality := some r.locality
    handover := some r.handover
    bhk := some r.bhk
    price_display := some r.price_display
    status := some r.status
    source := some r.source
    id := some r.id
    price_min_lakhs := numOfOpt r.price_min_lakhs
    price_max_lakhs := numOfOpt r.price_max_lakhs
    handover_year := hyOfOpt r.handover_year }

/-! ## Deduplication and the tail of the pipeline -/

/-- The dedup loop of `run_scraper` (scraper.py:1033-1039): first occurrence
of a `url` wins, later duplicates are discarded whole. -/
def dedupByUrl (seen : List (Option String)) : List InputRecord → List InputRecord
  | [] => []
  | p :: rest =>
    if p.url ∈ seen then dedupByUrl seen rest
    else p :: dedupByUrl (p.url :: seen) rest

/-- Lines 1033-1044 of `run_scraper`: dedup by url, drop junk names, then
verify and clean each record. -/
def pipelineFinalize (ps : List InputRecord) : List CleanRecord :=
  ((dedupByUrl [] ps).filter
      (fun p => ! _is_junk_project_name (stripS (p.name.getD "")))).filterMap
    verify_and_clean_property

/-- Suffix test used to observe which unit a display string was rendered in. -/
def endsWithL (pat s : List Char) : Bool := litHeadEq pat.reverse s.reverse

/-- A raw record with a valid url and name but an inverted numeric price pair. -/
def recGood : InputRecord :=
  { url := some "http://x.com/p1", name := some "Good Homes",
    price_min_lakhs := NumVal.num 211, price_max_lakhs := NumVal.num 71 }

/-- The cleaned record the Verifier produces for `recGood` (prices swapped,
display recomputed in crore notation). -/
def rGood : CleanRecord :=
  { id := "httpxcomp1", source := "99acres", status := "new_launch",
    name := "Good Homes", builder := "", locality := "",
    price_min_lakhs := some 71, price_max_lakhs := some 211,
    price_display := "₹ 0.71 - 2.11 Cr", handover := "",
    handover_year := Option.none, bhk := "", url := "http://x.com/p1" }

/-- A raw record whose name contains the UI-noise substring `"sort by"` only
after one scrub pass: normalization is not idempotent on it. -/
def recBad : InputRecord :=
  { url := some "http://x.com/p1", name := some "abc sort sort byby" }

/-- The cleaned record the Verifier produces for `recBad`; its name
`"abc sort by"` now contains the junk substring `"sort by"`. -/
def rBad : CleanRecord :=
  { id := "httpxcomp1", source := "99acres", status := "new_launch",
    name := "abc sort by", builder := "", locality := "",
    price_min_lakhs := Option.none, price_max_lakhs := Option.none,
    price_display := "", handover := "", handover_year := Option.none,
    bhk := "", url := "http://x.com/p1" }

/-- A later record sharing `recGood`'s url but with different fields. -/
def recDup : InputRecord :=
  { url := some "http://x.com/p1", name := some "Other Homes" }

/-- A raw record with no url at all. -/
def recNoUrl : InputRecord := {}

/-! ## Helper lemmas -/

theorem dropRun_idem (p : Char → Bool) (l : List Char) :
    dropRun p (dropRun p l) = dropRun p l := by
  induction l with
  | nil => rfl
  | cons c rest ih =>
    by_cases hc : p c
    · simp [dropRun, hc, ih]
    · simp [dropRun, hc]

theorem dropRun_suffix (p : Char → Bool) (l : List Char) :
    ∃ t, l = t ++ dropRun p l := by
  induction l with
  | nil => exact ⟨[], rfl⟩
  | cons c rest ih =>
    by_cases hc : p c
    · obtain ⟨t, ht⟩ := ih
      exact ⟨c :: t, by simp only [dropRun, if_pos hc, List.cons_append]; exact congrArg _ ht⟩
    · exact ⟨[], by simp [dropRun, hc]⟩

theorem dropRun_head_false (p : Char → Bool) (l : List Char) (c : Char) (t : List Char)
    (h : dropRun p l = c :: t) : p c = false := by
  induction l with
  | nil => simp [dropRun] at h
  | cons a rest ih =>
    cases hpa : p a
    · rw [dropRun, if_neg (by simp [hpa])] at h
      cases h
      exact hpa
    · rw [dropRun, if_pos (by simp [hpa])] at h
      exact ih h

theorem dropRun_stripL (l : List Char) : dropRun isWS (stripL l) = stripL l := by
  cases hs : stripL l with
  | nil => rfl
  | cons c t =>
    have hsplit : ∃ t2, dropRun isWS l = stripL l ++ t2 := by
      obtain ⟨t1, ht1⟩ := dropRun_suffix isWS ((dropRun isWS l).reverse)
      refine ⟨t1.reverse, ?_⟩
      have h2 := congrArg List.reverse ht1
      simpa [stripL] using h2
    obtain ⟨t2, ht2⟩ := hsplit
    have hc : isWS c = false := by
      refine dropRun_head_false isWS l c (t ++ t2) ?_
      rw [ht2, hs]
      simp
    rw [hs] at *
    simp [dropRun, hc]

theorem stripL_idem (l : List Char) : stripL (stripL l) = stripL l := by
  have h1 : dropRun isWS (stripL l) = stripL l := dropRun_stripL l
  have h2 : dropRun isWS ((stripL l).reverse) = (stripL l).reverse := by
    have hrev : (stripL l).reverse = dropRun isWS ((dropRun isWS l).reverse) := by
      simp [stripL]
    rw [hrev, dropRun_idem]
  calc stripL (stripL l)
      = (dropRun isWS ((dropRun isWS (stripL l)).reverse)).reverse := rfl
    _ = (dropRun isWS ((stripL l).reverse)).reverse := by rw [h1]
    _ = ((stripL l).reverse).reverse := by rw [h2]
    _ = stripL l := by simp

theorem stripS_idem (s : String) : stripS (stripS s) = stripS s := by
  simp [stripS, stripL_idem]

theorem stripL_no_ws (l : List Char) (h : ∀ c ∈ l, isWS c = false) : stripL l = l := by
  have h1 : dropRun isWS l = l := by
    cases l with
    | nil => rfl
    | cons c t => simp [dropRun, h c (by simp)]
  have h2 : dropRun isWS l.reverse = l.reverse := by
    cases hr : l.reverse with
    | nil => rfl
    | cons c t =>
      have hm : c ∈ l := by
        rw [← List.mem_reverse, hr]
        simp
      simp [dropRun, h c hm]
  simp [stripL, h1, h2]

theorem containsL_head_mem (c : Char) (ps hay : List Char)
    (h : containsL (c :: ps) hay = true) : c ∈ hay := by
  induction hay with
  | nil => simp [containsL, litHeadEq] at h
  | cons a rest ih =>
    rw [containsL, Bool.or_eq_true] at h
    rcases h with h | h
    · rw [litHeadEq, Bool.and_eq_true] at h
      have hca : c = a := by simpa [beq_iff_eq] using h.1
      simp [hca]
    · exact List.mem_cons_of_mem _ (ih h)

theorem last14_ne_nil (l : List Char) (h : l ≠ []) : last14 l ≠ [] := by
  simp only [last14]
  intro hc
  have hlen := congrArg List.length hc
  rw [List.length_drop] at hlen
  have hpos : 0 < l.length := List.length_pos.mpr h
  simp at hlen
  omega

theorem alnum_not_ws (c : Char) (h : c.isAlphanum = true) : isWS c = false := by
  cases hb : isWS c
  · rfl
  · exfalso
    simp only [isWS, Bool.or_eq_true, beq_iff_eq] at hb
    rcases hb with ((((rfl | rfl) | rfl) | rfl) | rfl) | rfl <;> exact absurd h (by decide)

/-- Inversion of a successful Verifier run: the guards passed and the result
is exactly the record built from the cleaned fields. -/
theorem verify_inv (rec : InputRecord) (r : CleanRecord)
    (h : verify_and_clean_property rec = some r) :
    urlOf rec ≠ "" ∧ containsL ("http").data (urlOf rec).data = true ∧
    _normalize_str rec.name 200 ≠ "" ∧
    _is_junk_project_name (_normalize_str rec.name 200) = false ∧
    r = { id := cleanIdF rec.id (urlOf rec)
          source := cleanSourceF rec.source
          status := cleanStatusF rec.status
          name := _normalize_str rec.name 200
          builder := _normalize_str rec.builder 100
          locality := _normalize_str rec.locality 150
          price_min_lakhs := (pricesOf rec).1
          price_max_lakhs := (pricesOf rec).2
          price_display := displayOf rec
          handover := _normalize_str rec.handover 50
          handover_year := cleanYear rec.handover_year
          bhk := _normalize_str rec.bhk 30
          url := urlOf rec } := by
  unfold verify_and_clean_property at h
  split at h
  · simp at h
  · next hg =>
    unfold verifyRest at h
    split at h
    · simp at h
    · next hn =>
      refine ⟨fun he => hg (Or.inl he), ?_, fun he => hn (Or.inl he), ?_, (Option.some.inj h).symm⟩
      · rcases Bool.eq_false_or_eq_true (containsL ("http").data (urlOf rec).data) with hb | hb
        · exact hb
        · exact absurd (Or.inr hb) hg
      · rcases Bool.eq_false_or_eq_true
            (_is_junk_project_name (_normalize_str rec.name 200)) with hb | hb
        · exact absurd (Or.inr hb) hn
        · exact hb

theorem boundCheck_eq (x : ℚ) :
    boundCheck (some x) =
      if x < PRICE_MIN_LAKHS ∨ x > PRICE_MAX_LAKHS then Option.none else some x := rfl

theorem boundCheck_some_inv (o : Option ℚ) (a : ℚ) (h : boundCheck o = some a) :
    boundCheck (some a) = some a ∧ PRICE_MIN_LAKHS ≤ a ∧ a ≤ PRICE_MAX_LAKHS := by
  cases o with
  | none => simp [boundCheck] at h
  | some x =>
    rw [boundCheck_eq] at h
    split at h
    · simp at h
    · next hb =>
      push_neg at hb
      obtain rfl : x = a := by simpa using h
      refine ⟨?_, hb.1, hb.2⟩
      rw [boundCheck_eq, if_neg (by push_neg; exact hb)]

theorem cleanPrices_spec (p q : Option ℚ) :
    (∀ a, (cleanPrices p q).1 = some a → PRICE_MIN_LAKHS ≤ a ∧ a ≤ PRICE_MAX_LAKHS) ∧
    (∀ b, (cleanPrices p q).2 = some b → PRICE_MIN_LAKHS ≤ b ∧ b ≤ PRICE_MAX_LAKHS) ∧
    (∀ a b, (cleanPrices p q).1 = some a → (cleanPrices p q).2 = some b → a ≤ b) := by
  cases hp : boundCheck p with
  | none =>
    cases hq : boundCheck q with
    | none =>
      have hval : cleanPrices p q = (Option.none, Option.none) := by
        unfold cleanPrices
        rw [hp, hq]
      rw [hval]
      simp
    | some y =>
      have hval : cleanPrices p q = (Option.none, some y) := by
        unfold cleanPrices
        rw [hp, hq]
      rw [hval]
      refine ⟨by simp, ?_, by simp⟩
      intro b hb
      obtain rfl : y = b := by simpa using hb
      exact (boundCheck_some_inv q y hq).2
  | some x =>
    cases hq : boundCheck q with
    | none =>
      have hval : cleanPrices p q = (some x, Option.none) := by
        unfold cleanPrices
        rw [hp, hq]
      rw [hval]
      refine ⟨?_, by simp, by simp⟩
      intro a ha
      obtain rfl : x = a := by simpa using ha
      exact (boundCheck_some_inv p x hp).2
    | some y =>
      have hx := (boundCheck_some_inv p x hp).2
      have hy := (boundCheck_some_inv q y hq).2
      by_cases hxy : x > y
      · have hval : cleanPrices p q = (some y, some x) := by
          unfold cleanPrices
          rw [hp, hq]
          exact if_pos hxy
        rw [hval]
        refine ⟨?_, ?_, ?_⟩
        · intro a ha
          obtain rfl : y = a := by simpa using ha
          exact hy
        · intro b hb
          obtain rfl : x = b := by simpa using hb
          exact hx
        · intro a b ha hb
          obtain rfl : y = a := by simpa using ha
          obtain rfl : x = b := by simpa using hb
          exact le_of_lt hxy
      · have hval : cleanPrices p q = (some x, some y) := by
          unfold cleanPrices
          rw [hp, hq]
          exact if_neg hxy
        rw [hval]
        refine ⟨?_, ?_, ?_⟩
        · intro a ha
          obtain rfl : x = a := by simpa using ha
          exact hx
        · intro b hb
          obtain rfl : y = b := by simpa using hb
          exact hy
        · intro a b ha hb
          obtain rfl : x = a := by simpa using ha
          obtain rfl : y = b := by simpa using hb
          exact not_lt.mp hxy

/-- C10: `_format_price_display` substitutes the non-null end of a price pair
for the missing one, so a single-ended price renders as the degenerate range
`X - X` in the unit chosen by that value, and the empty string is returned
exactly when both values are null. -/
theorem C10_display_substitution (q : ℚ) (a b : Option ℚ) :
    _format_price_display (some q) Option.none = _format_price_display (some q) (some q) ∧
    _format_price_display Option.none (some q) = _format_price_display (some q) (some q) ∧
    (_format_price_display a b = "" ↔ a = Option.none ∧ b = Option.none) := by
  have hne : ∀ mn mx : ℚ, priceRender mn mx ≠ "" := by
    intro mn mx
    unfold priceRender
    split <;>
      (intro hc
       rw [show ("" : String) = String.mk [] from rfl] at hc
       exact List.cons_ne_nil _ _ (congrArg String.data hc))
  refine ⟨rfl, rfl, ?_⟩
  cases a <;> cases b <;> simp [_format_price_display, hne]

/-- Witness for C10 at concrete inputs. -/
theorem C10_display_substitution_witness :
    _format_price_display (some 45) Option.none = _format_price_display (some 45) (some 45) ∧
    (_format_price_display Option.none Option.none = "" ↔
      (Option.none : Option ℚ) = Option.none ∧ (Option.none : Option ℚ) = Option.none) :=
  ⟨(C10_display_substitution 45 Option.none Option.none).1,
   (C10_display_substitution 45 Option.none Option.none).2.2⟩

/-- C1 counterexample: for the pair `(71, 211)` the code renders crore
notation `"₹ 0.71 - 2.11 Cr"` (because `211 ≥ 100`), not lakh notation as
the claim asserts. -/
theorem C1_counterexample :
    _format_price_display (some 71) (some 211) = "₹ 0.71 - 2.11 Cr" ∧
    endsWithL (' ' :: 'L' :: []) ("₹ 0.71 - 2.11 Cr").data = false ∧
    endsWithL (' ' :: 'C' :: 'r' :: []) ("₹ 0.71 - 2.11 Cr").data = true := by
  refine ⟨by decide, by decide, by decide⟩

/-- C1 (amended): the display is regenerable from the numeric pair alone and
the unit convention is keyed on the max: `(71, 211)` renders in crore
notation (since `211 ≥ 100`), `(230, 372)` renders in crore notation, and in
general `max ≥ 100` renders crore while `max < 100` renders lakh. -/
theorem C1_amended :
    _format_price_display (some 71) (some 211) = "₹ 0.71 - 2.11 Cr" ∧
    _format_price_display (some 230) (some 372) = "₹ 2.30 - 3.72 Cr" ∧
    (∀ mn mx : ℚ, 100 ≤ mx →
      endsWithL (' ' :: 'C' :: 'r' :: []) (_format_price_display (some mn) (some mx)).data = true) ∧
    (∀ mn mx : ℚ, mx < 100 →
      endsWithL (' ' :: 'L' :: []) (_format_price_display (some mn) (some mx)).data = true) := by
  refine ⟨by decide, by decide, ?_, ?_⟩
  · intro mn mx h
    simp only [_format_price_display, priceRender, if_pos h]
    simp [endsWithL, litHeadEq, List.reverse_append]
  · intro mn mx h
    simp only [_format_price_display, priceRender, if_neg (not_le.mpr h)]
    simp [endsWithL, litHeadEq, List.reverse_append]

/-- Witness for C1 (amended) at concrete inputs on both unit branches. -/
theorem C1_amended_witness :
    endsWithL (' ' :: 'C' :: 'r' :: []) (_format_price_display (some 1) (some 150)).data = true ∧
    endsWithL (' ' :: 'L' :: []) (_format_price_display (some 1) (some 2)).data = true :=
  ⟨C1_amended.2.2.1 1 150 (by norm_num), C1_amended.2.2.2 1 2 (by norm_num)⟩

/-- C2: the bare `"X Cr"` fallback branch of `parse_price_range` has no
sanity bound, so `"99999 Cr"` yields `(9999900, 9999900)` even though
`9999900` is far outside the `< 10000` bound every other branch enforces
(the parallel bare `"X L"` branch correctly rejects `"99999 L"`). -/
theorem C2_bare_crore_unbounded :
    parse_price_range "99999 Cr" = (some 9999900, some 9999900) ∧
    ¬ ((9999900 : ℚ) < 10000) ∧
    parse_price_range "99999 L" = (Option.none, Option.none) := by
  refine ⟨by decide, by decide, by decide⟩

/-- C9: the Verifier rejects a record outright exactly when its stripped url
is empty or lacks the substring `"http"`; when the url carries `"http"` the
url gate passes and verification proceeds to the remaining steps. -/
theorem C9_url_gate :
    (∀ rec : InputRecord,
        urlOf rec = "" ∨ containsL ("http").data (urlOf rec).data = false →
        verify_and_clean_property rec = Option.none) ∧
    (∀ rec : InputRecord, containsL ("http").data (urlOf rec).data = true →
        verify_and_clean_property rec = verifyRest rec (urlOf rec)) := by
  constructor
  · intro rec h
    unfold verify_and_clean_property
    rw [if_pos h]
  · intro rec h
    unfold verify_and_clean_property
    rw [if_neg]
    rintro (he | hf)
    · rw [he] at h
      exact absurd h (by decide)
    · rw [h] at hf
      simp at hf

/-- Witness for C9: a record with no url is rejected; a record whose url
carries a scheme passes the url gate. -/
theorem C9_url_gate_witness :
    verify_and_clean_property recNoUrl = Option.none ∧
    verify_and_clean_property recGood = verifyRest recGood (urlOf recGood) :=
  ⟨C9_url_gate.1 recNoUrl (Or.inl (by decide)), C9_url_gate.2 recGood (by decide)⟩

theorem dedup_filter_of_seen (seen : List (Option String)) (ps : List InputRecord)
    (u : Option String) (hu : u ∈ seen) :
    (dedupByUrl seen ps).filter (fun q => q.url == u) = [] := by
  induction ps generalizing seen with
  | nil => rfl
  | cons p rest ih =>
    unfold dedupByUrl
    split
    · exact ih seen hu
    · next hns =>
      have hne : (p.url == u) = false := by
        rw [beq_eq_false_iff_ne]
        intro he
        exact hns (he ▸ hu)
      rw [List.filter_cons]
      rw [hne]
      simp only [Bool.false_eq_true, if_false]
      exact ih (p.url :: seen) (List.mem_cons_of_mem _ hu)

theorem dedup_filter_find (seen : List (Option String)) (ps : List InputRecord)
    (u : Option String) (p : InputRecord) (hu : u ∉ seen)
    (h : ps.find? (fun q => q.url == u) = some p) :
    (dedupByUrl seen ps).filter (fun q => q.url == u) = [p] := by
  induction ps generalizing seen with
  | nil => simp [List.find?] at h
  | cons q rest ih =>
    by_cases hq : (q.url == u) = true
    · simp only [List.find?, hq] at h
      obtain rfl : q = p := by simpa using h
      have hqu : q.url = u := by simpa [beq_iff_eq] using hq
      unfold dedupByUrl
      rw [if_neg (by rw [hqu]; exact hu)]
      rw [List.filter_cons, hq]
      simp only [if_true]
      rw [dedup_filter_of_seen (q.url :: seen) rest u (by rw [hqu]; exact List.mem_cons_self _ _)]
    · have hne : (q.url == u) = false := by
        rcases Bool.eq_false_or_eq_true (q.url == u) with hb | hb
        · exact absurd hb hq
        · exact hb
      simp only [List.find?, hne] at h
      unfold dedupByUrl
      split
      · exact ih seen hu h
      · rw [List.filter_cons, hne]
        simp only [Bool.false_eq_true, if_false]
        refine ih (q.url :: seen) ?_ h
        intro hc
        rcases List.mem_cons.mp hc with hc1 | hc2
        · rw [beq_eq_false_iff_ne] at hne
          exact hne hc1.symm
        · exact hu hc2

/-- C5: on any input sequence, for every url that occurs, the dedup loop of
`run_scraper` retains exactly the first-encountered record carrying that url,
unmodified, and discards every later duplicate. -/
theorem C5_dedup_first_wins (ps : List InputRecord) (u : Option String) (p : InputRecord)
    (h : ps.find? (fun q => q.url == u) = some p) :
    p ∈ ps ∧ (dedupByUrl [] ps).filter (fun q => q.url == u) = [p] :=
  ⟨List.mem_of_find?_eq_some h, dedup_filter_find [] ps u p (by simp) h⟩

/-- Witness for C5: two records share a url and differ elsewhere; the
first-encountered one is retained whole. -/
theorem C5_dedup_first_wins_witness :
    recGood ∈ [recGood, recDup] ∧
    (dedupByUrl [] [recGood, recDup]).filter
      (fun q => q.url == some "http://x.com/p1") = [recGood] :=
  C5_dedup_first_wins [recGood, recDup] (some "http://x.com/p1") recGood (by decide)

theorem junk_take (s : String) (hs : s ∈ JUNK_PROJECT_NAMES) : s.data.take 120 = s.data := by
  simp only [JUNK_PROJECT_NAMES, List.mem_cons, List.not_mem_nil, or_false] at hs
  rcases hs with rfl|rfl|rfl|rfl|rfl|rfl|rfl|rfl|rfl|rfl|rfl|rfl|rfl|rfl|rfl|rfl <;> decide

/-- C6: a candidate name that case-insensitively equals one of the known
navigation/page-title strings is classified as junk by the filter, and no
record in the final pipeline output carries such a name. -/
theorem C6_junk_never_in_output :
    (∀ name : String,
        String.mk ((stripL name.data).map Char.toLower) ∈ JUNK_PROJECT_NAMES →
        _is_junk_project_name name = true) ∧
    (∀ (ps : List InputRecord) (r : CleanRecord), r ∈ pipelineFinalize ps →
        String.mk ((stripL r.name.data).map Char.toLower) ∉ JUNK_PROJECT_NAMES) := by
  have partA : ∀ name : String,
      String.mk ((stripL name.data).map Char.toLower) ∈ JUNK_PROJECT_NAMES →
      _is_junk_project_name name = true := by
    intro name h
    have htake : ((stripL name.data).map Char.toLower).take 120 =
        (stripL name.data).map Char.toLower := by
      have := junk_take _ h
      simpa using this
    unfold _is_junk_project_name
    split
    · rfl
    · have hmem : String.mk (junkKey name) ∈ JUNK_PROJECT_NAMES := by
        unfold junkKey
        rw [htake]
        exact h
      rw [if_pos hmem]
  refine ⟨partA, ?_⟩
  intro ps r hr hmem
  simp only [pipelineFinalize, List.mem_filterMap] at hr
  obtain ⟨rec, -, hv⟩ := hr
  obtain ⟨-, -, -, hjunk, hrec⟩ := verify_inv rec r hv
  have hname : r.name = _normalize_str rec.name 200 := by rw [hrec]
  have hA := partA r.name hmem
  rw [hname] at hA
  rw [hA] at hjunk
  simp at hjunk

/-- Witness for C6: a nav title is classified junk; a real record's name in
the pipeline output is not a nav title. -/
theorem C6_junk_never_in_output_witness :
    _is_junk_project_name "Projects in Bangalore" = true ∧
    String.mk ((stripL rGood.name.data).map Char.toLower) ∉ JUNK_PROJECT_NAMES :=
  ⟨C6_junk_never_in_output.1 "Projects in Bangalore" (by decide),
   C6_junk_never_in_output.2 [recGood] rGood (by decide)⟩

/-- C4: every record the Verifier returns has its non-null prices inside
`[PRICE_MIN_LAKHS, PRICE_MAX_LAKHS]` and ordered `min ≤ max`; an inverted
in-bounds numeric input pair is swapped (the record is still returned), and
an out-of-bounds value is nulled individually, leaving the other intact. -/
theorem C4_price_invariant (rec : InputRecord) (r : CleanRecord)
    (h : verify_and_clean_property rec = some r) :
    (∀ a b, r.price_min_lakhs = some a → r.price_max_lakhs = some b → a ≤ b) ∧
    (∀ a, r.price_min_lakhs = some a → PRICE_MIN_LAKHS ≤ a ∧ a ≤ PRICE_MAX_LAKHS) ∧
    (∀ b, r.price_max_lakhs = some b → PRICE_MIN_LAKHS ≤ b ∧ b ≤ PRICE_MAX_LAKHS) ∧
    (∀ a b : ℚ, rec.price_min_lakhs = NumVal.num a → rec.price_max_lakhs = NumVal.num b →
      PRICE_MIN_LAKHS ≤ a → a ≤ PRICE_MAX_LAKHS → PRICE_MIN_LAKHS ≤ b → b ≤ PRICE_MAX_LAKHS →
      b < a → r.price_min_lakhs = some b ∧ r.price_max_lakhs = some a) ∧
    (∀ a b : ℚ, rec.price_min_lakhs = NumVal.num a → rec.price_max_lakhs = NumVal.num b →
      PRICE_MIN_LAKHS ≤ a → a ≤ PRICE_MAX_LAKHS →
      (b < PRICE_MIN_LAKHS ∨ b > PRICE_MAX_LAKHS) →
      r.price_min_lakhs = some a ∧ r.price_max_lakhs = Option.none) := by
  obtain ⟨-, -, -, -, hr⟩ := verify_inv rec r h
  have hmin : r.price_min_lakhs = (pricesOf rec).1 := by rw [hr]
  have hmax : r.price_max_lakhs = (pricesOf rec).2 := by rw [hr]
  obtain ⟨s1, s2, s3⟩ :=
    cleanPrices_spec (coercePrices rec.price_min_lakhs rec.price_max_lakhs).1
      (coercePrices rec.price_min_lakhs rec.price_max_lakhs).2
  refine ⟨?_, ?_, ?_, ?_, ?_⟩
  · intro a b ha hb
    rw [hmin] at ha
    rw [hmax] at hb
    exact s3 a b ha hb
  · intro a ha
    rw [hmin] at ha
    exact s1 a ha
  · intro b hb
    rw [hmax] at hb
    exact s2 b hb
  · intro a b hra hrb h1 h2 h3 h4 h5
    have hco : coercePrices rec.price_min_lakhs rec.price_max_lakhs = (some a, some b) := by
      rw [hra, hrb]
      rfl
    have hb1 : boundCheck (some a) = some a := by
      rw [boundCheck_eq, if_neg (by push_neg; exact ⟨h1, h2⟩)]
    have hb2 : boundCheck (some b) = some b := by
      rw [boundCheck_eq, if_neg (by push_neg; exact ⟨h3, h4⟩)]
    have hval : pricesOf rec = (some b, some a) := by
      unfold pricesOf
      rw [hco]
      unfold cleanPrices
      rw [show ((some a, some b) : Option ℚ × Option ℚ).1 = some a from rfl]
      rw [show ((some a, some b) : Option ℚ × Option ℚ).2 = some b from rfl]
      rw [hb1, hb2]
      exact if_pos h5
    rw [hmin, hmax, hval]
    exact ⟨rfl, rfl⟩
  · intro a b hra hrb h1 h2 h5
    have hco : coercePrices rec.price_min_lakhs rec.price_max_lakhs = (some a, some b) := by
      rw [hra, hrb]
      rfl
    have hb1 : boundCheck (some a) = some a := by
      rw [boundCheck_eq, if_neg (by push_neg; exact ⟨h1, h2⟩)]
    have hb2 : boundCheck (some b) = Option.none := by
      rw [boundCheck_eq, if_pos h5]
    have hval : pricesOf rec = (some a, Option.none) := by
      unfold pricesOf
      rw [hco]
      unfold cleanPrices
      rw [show ((some a, some b) : Option ℚ × Option ℚ).1 = some a from rfl]
      rw [show ((some a, some b) : Option ℚ × Option ℚ).2 = some b from rfl]
      rw [hb1, hb2]
    rw [hmin, hmax, hval]
    exact ⟨rfl, rfl⟩

/-- Witness for C4: an inverted in-bounds pair `(211, 71)` is swapped into
the returned record, and the invariant holds at the swapped values. -/
theorem C4_price_invariant_witness :
    ((71 : ℚ) ≤ 211) ∧
    (rGood.price_min_lakhs = some 71 ∧ rGood.price_max_lakhs = some 211) := by
  have h := C4_price_invariant recGood rGood (by decide)
  exact ⟨h.1 71 211 (by decide) (by decide),
    h.2.2.2.1 211 71 (by decide) (by decide) (by decide) (by decide) (by decide) (by decide)
      (by decide)⟩

theorem cleanStatusF_mem (o : Option String) :
    cleanStatusF o = "new_launch" ∨ cleanStatusF o = "under_construction" ∨
      cleanStatusF o = "ready_to_move" := by
  unfold cleanStatusF
  split
  · next hc => exact hc
  · exact Or.inl rfl

theorem cleanStatusF_lit (s : String)
    (h : s = "new_launch" ∨ s = "under_construction" ∨ s = "ready_to_move") :
    cleanStatusF (some s) = s := by
  rcases h with rfl | rfl | rfl <;> decide

theorem cleanSourceF_props (o : Option String) :
    stripS (cleanSourceF o) = cleanSourceF o ∧ cleanSourceF o ≠ "" := by
  unfold cleanSourceF
  split
  · exact ⟨by decide, by decide⟩
  · next h => exact ⟨stripS_idem _, h⟩

theorem cleanSourceF_of_fix (s : String) (h1 : stripS s = s) (h2 : s ≠ "") :
    cleanSourceF (some s) = s := by
  unfold cleanSourceF
  simp only [Option.getD_some]
  rw [h1, if_neg h2]

theorem cleanIdF_props (o : Option String) (url : String)
    (hhttp : containsL ("http").data url.data = true) :
    stripS (cleanIdF o url) = cleanIdF o url ∧ cleanIdF o url ≠ "" := by
  unfold cleanIdF
  split
  · have hmem : 'h' ∈ url.data :=
      containsL_head_mem 'h' ('t' :: 't' :: 'p' :: []) url.data hhttp
    have hmf : 'h' ∈ url.data.filter Char.isAlphanum :=
      List.mem_filter.mpr ⟨hmem, by decide⟩
    have hfne : url.data.filter Char.isAlphanum ≠ [] := by
      intro hc
      rw [hc] at hmf
      exact List.not_mem_nil _ hmf
    have hlne : last14 (url.data.filter Char.isAlphanum) ≠ [] := last14_ne_nil _ hfne
    constructor
    · have hws : ∀ c ∈ last14 (url.data.filter Char.isAlphanum), isWS c = false := by
        intro c hc
        have hcf : c ∈ url.data.filter Char.isAlphanum := by
          simp only [last14] at hc
          exact List.mem_of_mem_drop hc
        exact alnum_not_ws c (List.mem_filter.mp hcf).2
      simp [stripS, stripL_no_ws _ hws]
    · intro hc
      exact hlne (congrArg String.data hc)
  · next h => exact ⟨stripS_idem _, h⟩

theorem cleanIdF_of_fix (s : String) (url : String) (h1 : stripS s = s) (h2 : s ≠ "") :
    cleanIdF (some s) url = s := by
  unfold cleanIdF
  simp only [Option.getD_some]
  rw [h1, if_neg h2]

theorem cleanYear_inv (v : HYVal) (n : ℤ) (h : cleanYear v = some n) :
    ¬(n < HANDOVER_YEAR_MIN ∨ n > HANDOVER_YEAR_MAX) := by
  unfold cleanYear at h
  cases hs : pyIntCoerce v with
  | none =>
    rw [hs] at h
    exact Option.noConfusion h
  | some m =>
    simp only [hs] at h
    split at h
    · exact Option.noConfusion h
    · next hb =>
      obtain rfl : m = n := by simpa using h
      exact hb

theorem cleanYear_round (v : HYVal) : cleanYear (hyOfOpt (cleanYear v)) = cleanYear v := by
  cases hv : cleanYear v with
  | none => rfl
  | some n =>
    have hb := cleanYear_inv v n hv
    show cleanYear (hyOfOpt (some n)) = some n
    unfold cleanYear
    simp only [hyOfOpt, pyIntCoerce]
    rw [if_neg hb]

theorem coerce_numOfOpt (a b : Option ℚ) :
    coercePrices (numOfOpt a) (numOfOpt b) = (a, b) := by
  cases a <;> cases b <;> rfl

theorem cleanPrices_idem (p q : Option ℚ) :
    cleanPrices (cleanPrices p q).1 (cleanPrices p q).2 = cleanPrices p q := by
  cases hp : boundCheck p with
  | none =>
    cases hq : boundCheck q with
    | none =>
      have hval : cleanPrices p q = (Option.none, Option.none) := by
        unfold cleanPrices
        rw [hp, hq]
      rw [hval]
      rfl
    | some y =>
      have hy := (boundCheck_some_inv q y hq).1
      have hval : cleanPrices p q = (Option.none, some y) := by
        unfold cleanPrices
        rw [hp, hq]
      rw [hval]
      unfold cleanPrices
      rw [show boundCheck ((Option.none, some y) : Option ℚ × Option ℚ).1 = Option.none from rfl]
      rw [show ((Option.none, some y) : Option ℚ × Option ℚ).2 = some y from rfl]
      rw [hy]
  | some x =>
    cases hq : boundCheck q with
    | none =>
      have hx := (boundCheck_some_inv p x hp).1
      have hval : cleanPrices p q = (some x, Option.none) := by
        unfold cleanPrices
        rw [hp, hq]
      rw [hval]
      unfold cleanPrices
      rw [show ((some x, Option.none) : Option ℚ × Option ℚ).1 = some x from rfl]
      rw [show boundCheck ((some x, Option.none) : Option ℚ × Option ℚ).2 = Option.none from rfl]
      rw [hx]
    | some y =>
      have hx := (boundCheck_some_inv p x hp).1
      have hy := (boundCheck_some_inv q y hq).1
      by_cases hxy : x > y
      · have hval : cleanPrices p q = (some y, some x) := by
          unfold cleanPrices
          rw [hp, hq]
          exact if_pos hxy
        rw [hval]
        unfold cleanPrices
        rw [show ((some y, some x) : Option ℚ × Option ℚ).1 = some y from rfl]
        rw [show ((some y, some x) : Option ℚ × Option ℚ).2 = some x from rfl]
        rw [hy, hx]
        exact if_neg (lt_asymm hxy)
      · have hval : cleanPrices p q = (some x, some y) := by
          unfold cleanPrices
          rw [hp, hq]
          exact if_neg hxy
        rw [hval]
        unfold cleanPrices
        rw [show ((some x, some y) : Option ℚ × Option ℚ).1 = some x from rfl]
        rw [show ((some x, some y) : Option ℚ × Option ℚ).2 = some y from rfl]
        rw [hx, hy]
        exact if_neg hxy

/-- C3 counterexample: the Verifier is not idempotent.  `recBad`'s name
`"abc sort sort byby"` cleans to `"abc sort by"` (one junk-scrub pass creates
a fresh `"sort by"` occurrence); re-running the Verifier on the cleaned
record scrubs the name down to `"abc"`, which fails the junk filter, so the
second run drops the record instead of returning it unchanged. -/
theorem C3_counterexample :
    verify_and_clean_property recBad = some rBad ∧
    verify_and_clean_property (toInput rBad) = Option.none ∧
    verify_and_clean_property (toInput rBad) ≠ some rBad := by
  refine ⟨by decide, by decide, by decide⟩

/-- C3 (amended): the Verifier is idempotent on every record it returns
whose text fields are fixed points of the normalizer — re-normalizing name,
builder, locality, handover, bhk and price_display leaves them unchanged.
(The unrestricted claim is false: junk-substring removal or truncation can
produce a non-fixed-point field, and a second run then alters or drops the
record, as `C3_counterexample` shows.) -/
theorem C3_verifier_idempotent_on_fixed_points (rec : InputRecord) (r : CleanRecord)
    (h : verify_and_clean_property rec = some r)
    (hname : _normalize_str (some r.name) 200 = r.name)
    (hbuilder : _normalize_str (some r.builder) 100 = r.builder)
    (hlocality : _normalize_str (some r.locality) 150 = r.locality)
    (hhandover : _normalize_str (some r.handover) 50 = r.handover)
    (hbhk : _normalize_str (some r.bhk) 30 = r.bhk)
    (hpd : _normalize_str (some r.price_display) 80 = r.price_display) :
    verify_and_clean_property (toInput r) = some r := by
  obtain ⟨hu1, hu2, hn1, hn2, hr⟩ := verify_inv rec r h
  have eid : r.id = cleanIdF rec.id (urlOf rec) := by rw [hr]
  have esrc : r.source = cleanSourceF rec.source := by rw [hr]
  have estat : r.status = cleanStatusF rec.status := by rw [hr]
  have ename : r.name = _normalize_str rec.name 200 := by rw [hr]
  have epmin : r.price_min_lakhs = (pricesOf rec).1 := by rw [hr]
  have epmax : r.price_max_lakhs = (pricesOf rec).2 := by rw [hr]
  have epd : r.price_display = displayOf rec := by rw [hr]
  have ehy : r.handover_year = cleanYear rec.handover_year := by rw [hr]
  have eurl : r.url = urlOf rec := by rw [hr]
  have hurl2 : urlOf (toInput r) = urlOf rec := by
    show stripS ((some r.url).getD "") = urlOf rec
    simp only [Option.getD_some]
    rw [eurl]
    exact stripS_idem _
  have f_name : _normalize_str (toInput r).name 200 = r.name := hname
  have f_id : cleanIdF (toInput r).id (urlOf rec) = r.id := by
    show cleanIdF (some r.id) (urlOf rec) = r.id
    obtain ⟨hfix, hne⟩ := cleanIdF_props rec.id (urlOf rec) hu2
    rw [eid]
    exact cleanIdF_of_fix _ _ hfix hne
  have f_src : cleanSourceF (toInput r).source = r.source := by
    show cleanSourceF (some r.source) = r.source
    obtain ⟨hfix, hne⟩ := cleanSourceF_props rec.source
    rw [esrc]
    exact cleanSourceF_of_fix _ hfix hne
  have f_stat : cleanStatusF (toInput r).status = r.status := by
    show cleanStatusF (some r.status) = r.status
    rw [estat]
    exact cleanStatusF_lit _ (cleanStatusF_mem rec.status)
  have f_builder : _normalize_str (toInput r).builder 100 = r.builder := hbuilder
  have f_locality : _normalize_str (toInput r).locality 150 = r.locality := hlocality
  have f_handover : _normalize_str (toInput r).handover 50 = r.handover := hhandover
  have f_bhk : _normalize_str (toInput r).bhk 30 = r.bhk := hbhk
  have f_prices : pricesOf (toInput r) = pricesOf rec := by
    show cleanPrices
        (coercePrices (numOfOpt r.price_min_lakhs) (numOfOpt r.price_max_lakhs)).1
        (coercePrices (numOfOpt r.price_min_lakhs) (numOfOpt r.price_max_lakhs)).2 =
      pricesOf rec
    rw [coerce_numOfOpt, epmin, epmax]
    exact cleanPrices_idem (coercePrices rec.price_min_lakhs rec.price_max_lakhs).1
      (coercePrices rec.price_min_lakhs rec.price_max_lakhs).2
  have f_pmin : (pricesOf (toInput r)).1 = r.price_min_lakhs := by
    rw [f_prices, epmin]
  have f_pmax : (pricesOf (toInput r)).2 = r.price_max_lakhs := by
    rw [f_prices, epmax]
  have f_disp : displayOf (toInput r) = r.price_display := by
    have hshape : displayOf (toInput r) =
        if (pricesOf rec).1 ≠ Option.none ∨ (pricesOf rec).2 ≠ Option.none then
          _format_price_display (pricesOf rec).1 (pricesOf rec).2
        else _normalize_str (some r.price_display) 80 := by
      unfold displayOf
      rw [f_prices]
      rfl
    rw [hshape]
    by_cases hc : (pricesOf rec).1 ≠ Option.none ∨ (pricesOf rec).2 ≠ Option.none
    · rw [if_pos hc, epd]
      unfold displayOf
      rw [if_pos hc]
    · rw [if_neg hc, hpd]
  have f_hy : cleanYear (toInput r).handover_year = r.handover_year := by
    show cleanYear (hyOfOpt r.handover_year) = r.handover_year
    rw [ehy]
    exact cleanYear_round rec.handover_year
  unfold verify_and_clean_property
  rw [hurl2]
  rw [if_neg (by
    rintro (he | hf)
    · exact hu1 he
    · rw [hu2] at hf
      exact Bool.noConfusion hf)]
  unfold verifyRest
  rw [f_name]
  rw [if_neg (by
    rintro (he | hf)
    · rw [ename] at he
      exact hn1 he
    · rw [ename] at hf
      rw [hn2] at hf
      exact Bool.noConfusion hf)]
  refine congrArg some ?_
  rw [f_id, f_src, f_stat, f_builder, f_locality, f_pmin, f_pmax, f_disp, f_handover, f_hy,
    f_bhk, ← eurl]

/-- Witness for C3 (amended): a cleaned record with fixed-point text fields
round-trips through the Verifier unchanged. -/
theorem C3_verifier_idempotent_on_fixed_points_witness :
    verify_and_clean_property (toInput rGood) = some rGood :=
  C3_verifier_idempotent_on_fixed_points recGood rGood (by decide) (by decide) (by decide)
    (by decide) (by decide) (by decide) (by decide)

theorem digit_not_ws (c : Char) (h : c.isDigit = true) : isWS c = false := by
  cases hb : isWS c
  · rfl
  · exfalso
    simp only [isWS, Bool.or_eq_true, beq_iff_eq] at hb
    rcases hb with ((((rfl | rfl) | rfl) | rfl) | rfl) | rfl <;> exact absurd h (by decide)

theorem digit_dd (c : Char) (h : c.isDigit = true) : isDD c = true := by
  simp [isDD, h]

theorem dropRun_not (p : Char → Bool) (c : Char) (t : List Char) (h : p c = false) :
    dropRun p (c :: t) = c :: t := by
  simp [dropRun, h]

theorem skipWS_space (t : List Char) : skipWS (' ' :: t) = skipWS t := rfl

theorem skipWS_not (c : Char) (t : List Char) (h : isWS c = false) :
    skipWS (c :: t) = c :: t := dropRun_not isWS c t h

theorem skipWS_digits_append (Z t : List Char) (hne : Z ≠ [])
    (h : ∀ c ∈ Z, c.isDigit = true) : skipWS (Z ++ t) = Z ++ t := by
  cases Z with
  | nil => exact absurd rfl hne
  | cons d Z' =>
    rw [List.cons_append]
    exact skipWS_not _ _ (digit_not_ws d (h d (List.mem_cons_self d Z')))

theorem takeRun_all_append (p : Char → Bool) (Z : List Char) (u : Char) (t : List Char)
    (hZ : ∀ c ∈ Z, p c = true) (hu : p u = false) :
    takeRun p (Z ++ u :: t) = Z := by
  induction Z with
  | nil => simp [takeRun, hu]
  | cons c Z' ih =>
    rw [List.cons_append]
    simp only [takeRun, hZ c (List.mem_cons_self c Z'), if_true]
    exact congrArg _ (ih (fun c' hc' => hZ c' (List.mem_cons_of_mem _ hc')))

theorem dropRun_all_append (p : Char → Bool) (Z : List Char) (u : Char) (t : List Char)
    (hZ : ∀ c ∈ Z, p c = true) (hu : p u = false) :
    dropRun p (Z ++ u :: t) = u :: t := by
  induction Z with
  | nil => simp [dropRun, hu]
  | cons c Z' ih =>
    rw [List.cons_append]
    simp only [dropRun, hZ c (List.mem_cons_self c Z'), if_true]
    exact ih (fun c' hc' => hZ c' (List.mem_cons_of_mem _ hc'))

theorem numFirst_digits (rm : List Char → Option β) (Z : List Char) (u : Char) (t : List Char)
    (hZ : ∀ c ∈ Z, isDD c = true) (hne : Z ≠ []) (hu : isDD u = false) :
    numFirst rm (Z ++ u :: t) = (rm (u :: t)).map (fun b => (Z, b)) := by
  unfold numFirst
  rw [takeRun_all_append isDD Z u t hZ hu, dropRun_all_append isDD Z u t hZ hu, if_neg hne]

theorem numFirst_head_not (rm : List Char → Option β) (u : Char) (t : List Char)
    (hu : isDD u = false) : numFirst rm (u :: t) = none := by
  unfold numFirst
  rw [show takeRun isDD (u :: t) = [] from by simp [takeRun, hu], if_pos rfl]

theorem searchFrom_of_head (m : List Char → Option β) (cs : List Char) (x : β)
    (h : m cs = some x) : searchFrom m cs = some x := by
  cases cs with
  | nil => simpa [searchFrom] using h
  | cons c rest =>
    unfold searchFrom
    rw [h]

theorem searchFrom_cons_none (m : List Char → Option β) (c : Char) (rest : List Char)
    (h : m (c :: rest) = none) : searchFrom m (c :: rest) = searchFrom m rest := by
  conv_lhs => rw [searchFrom]
  rw [h]

theorem searchFrom_digits_none (rm : List Char → Option β) (Z : List Char) (u : Char)
    (t : List Char) (hZ : ∀ c ∈ Z, isDD c = true) (hu : isDD u = false)
    (hrm : rm (u :: t) = none) (hrest : searchFrom (numFirst rm) (u :: t) = none) :
    searchFrom (numFirst rm) (Z ++ u :: t) = none := by
  induction Z with
  | nil => exact hrest
  | cons c Z' ih =>
    have hZ' : ∀ c' ∈ Z', isDD c' = true := fun c' hc' => hZ c' (List.mem_cons_of_mem _ hc')
    have hfail : numFirst rm ((c :: Z') ++ u :: t) = none := by
      rw [numFirst_digits rm (c :: Z') u t hZ (List.cons_ne_nil c Z') hu, hrm]
      rfl
    rw [List.cons_append]
    rw [searchFrom_cons_none _ _ _ (by rw [← List.cons_append]; exact hfail)]
    exact ih hZ'

theorem floatOfL_digits (Z : List Char) (hne : Z ≠ []) (hd : ∀ c ∈ Z, c.isDigit = true) :
    floatOfL Z = some ((digitsVal Z : ℕ) : ℚ) := by
  have hfil : Z.filter (fun c => c == '.') = [] := by
    rw [List.filter_eq_nil_iff]
    intro c hc
    have hdig := hd c hc
    simp only [beq_iff_eq]
    intro hcc
    subst hcc
    exact absurd hdig (by decide)
  have hall : Z.all Char.isDigit = true := List.all_eq_true.mpr hd
  unfold floatOfL
  rw [hfil]
  simp [hne, hall]

theorem tryAlts_cons_some (a : List Char) (alts : List (List Char)) (cs cs' : List Char)
    (k : List Char → Option β) (h : dropLitCI a cs = some cs') (hk : k cs' = none) :
    tryAlts (a :: alts) cs k = tryAlts alts cs k := by
  conv_lhs => rw [tryAlts]
  simp only [h, hk]

theorem tryAlts_cons_none (a : List Char) (alts : List (List Char)) (cs : List Char)
    (k : List Char → Option β) (h : dropLitCI a cs = none) :
    tryAlts (a :: alts) cs k = tryAlts alts cs k := by
  conv_lhs => rw [tryAlts]
  simp only [h]

theorem tryAlts_cons_hit (a : List Char) (alts : List (List Char)) (cs cs' : List Char)
    (k : List Char → Option β) (x : β) (h : dropLitCI a cs = some cs') (hk : k cs' = some x) :
    tryAlts (a :: alts) cs k = some x := by
  conv_lhs => rw [tryAlts]
  simp only [h, hk]

theorem rawOf_eq (l : List Char)
    (hc : ∀ c ∈ l, (c != ',') = true) (hr : ∀ c ∈ l, (c != '₹') = true)
    (h1 : dropRun isWS l = l) (h2 : dropRun isWS l.reverse = l.reverse) :
    rawOf (String.mk l) = l := by
  unfold rawOf
  rw [show (String.mk l).data = l from rfl]
  rw [List.filter_eq_self.mpr hc, List.filter_eq_self.mpr hr]
  simp [stripL, h1, h2]

theorem p1Rest_dash_digits (db : List Char) (h2 : db ≠ [])
    (h4 : ∀ c ∈ db, c.isDigit = true) :
    p1Rest (' ' :: '-' :: ' ' :: (db ++ (' ' :: 'C' :: 'r' :: []))) = some db := by
  unfold p1Rest
  rw [show skipWS (' ' :: '-' :: ' ' :: (db ++ (' ' :: 'C' :: 'r' :: []))) =
      '-' :: ' ' :: (db ++ (' ' :: 'C' :: 'r' :: [])) from by
    rw [skipWS_space]
    exact skipWS_not _ _ (by decide)]
  show (numFirst crAfterWS (skipWS (' ' :: (db ++ (' ' :: 'C' :: 'r' :: []))))).map
      (fun gb => gb.1) = some db
  rw [skipWS_space, skipWS_digits_append db (' ' :: 'C' :: 'r' :: []) h2 h4]
  rw [numFirst_digits crAfterWS db ' ' ('C' :: 'r' :: [])
    (fun c hc => digit_dd c (h4 c hc)) h2 (by decide)]
  rw [show crAfterWS (' ' :: 'C' :: 'r' :: []) = some () from by decide]
  rfl

theorem input7_chars (da db : List Char) (h3 : ∀ c ∈ da, c.isDigit = true)
    (h4 : ∀ c ∈ db, c.isDigit = true) :
    ∀ c ∈ da ++ ' ' :: '-' :: ' ' :: (db ++ (' ' :: 'C' :: 'r' :: [])),
      c.isDigit = true ∨ c = ' ' ∨ c = '-' ∨ c = 'C' ∨ c = 'r' := by
  intro c hc
  rcases List.mem_append.mp hc with h | h
  · exact Or.inl (h3 c h)
  · rcases List.mem_cons.mp h with rfl | h
    · exact Or.inr (Or.inl rfl)
    rcases List.mem_cons.mp h with rfl | h
    · exact Or.inr (Or.inr (Or.inl rfl))
    rcases List.mem_cons.mp h with rfl | h
    · exact Or.inr (Or.inl rfl)
    rcases List.mem_append.mp h with h | h
    · exact Or.inl (h4 c h)
    rcases List.mem_cons.mp h with rfl | h
    · exact Or.inr (Or.inl rfl)
    rcases List.mem_cons.mp h with rfl | h
    · exact Or.inr (Or.inr (Or.inr (Or.inl rfl)))
    rcases List.mem_cons.mp h with rfl | h
    · exact Or.inr (Or.inr (Or.inr (Or.inr rfl)))
    exact absurd h (List.not_mem_nil c)

theorem rawOf_input7 (da db : List Char) (h1 : da ≠ [])
    (h3 : ∀ c ∈ da, c.isDigit = true) (h4 : ∀ c ∈ db, c.isDigit = true) :
    rawOf (String.mk (da ++ ' ' :: '-' :: ' ' :: (db ++ (' ' :: 'C' :: 'r' :: [])))) =
      da ++ ' ' :: '-' :: ' ' :: (db ++ (' ' :: 'C' :: 'r' :: [])) := by
  have hchars := input7_chars da db h3 h4
  refine rawOf_eq _ ?_ ?_ ?_ ?_
  · intro c hc
    rcases hchars c hc with h | rfl | rfl | rfl | rfl
    · simp only [bne_iff_ne, ne_eq]
      intro hcc
      subst hcc
      exact absurd h (by decide)
    all_goals decide
  · intro c hc
    rcases hchars c hc with h | rfl | rfl | rfl | rfl
    · simp only [bne_iff_ne, ne_eq]
      intro hcc
      subst hcc
      exact absurd h (by decide)
    all_goals decide
  · cases da with
    | nil => exact absurd rfl h1
    | cons d da' =>
      rw [List.cons_append]
      exact dropRun_not isWS d _ (digit_not_ws d (h3 d (List.mem_cons_self d da')))
  · have hsplit : da ++ ' ' :: '-' :: ' ' :: (db ++ (' ' :: 'C' :: 'r' :: [])) =
        (da ++ ' ' :: '-' :: ' ' :: (db ++ (' ' :: 'C' :: []))) ++ ['r'] := by
      simp
    rw [hsplit, List.reverse_append]
    exact dropRun_not isWS 'r' _ (by decide)

/-- C7: for every input of the form `"A - B Cr"` with digit strings `A`, `B`
whose values satisfy `A ≤ B < 1000`, `parse_price_range` returns
`(100*A, 100*B)` in lakhs (pattern 1 fires at the leftmost position). -/
theorem C7_explicit_crore_range (da db : List Char) (h1 : da ≠ []) (h2 : db ≠ [])
    (h3 : ∀ c ∈ da, c.isDigit = true) (h4 : ∀ c ∈ db, c.isDigit = true)
    (h5 : ((digitsVal da : ℕ) : ℚ) ≤ ((digitsVal db : ℕ) : ℚ))
    (h6 : ((digitsVal db : ℕ) : ℚ) < 1000) :
    parse_price_range
        (String.mk (da ++ ' ' :: '-' :: ' ' :: (db ++ (' ' :: 'C' :: 'r' :: [])))) =
      (some (((digitsVal da : ℕ) : ℚ) * 100), some (((digitsVal db : ℕ) : ℚ) * 100)) := by
  have hne : ¬(String.mk (da ++ ' ' :: '-' :: ' ' :: (db ++ (' ' :: 'C' :: 'r' :: []))) = "") := by
    intro hc
    have hdata : da ++ ' ' :: '-' :: ' ' :: (db ++ (' ' :: 'C' :: 'r' :: [])) = [] :=
      congrArg String.data hc
    rcases List.append_eq_nil.mp hdata with ⟨-, hcons⟩
    exact List.cons_ne_nil _ _ hcons
  have hsearch : searchFrom (numFirst p1Rest)
      (da ++ ' ' :: '-' :: ' ' :: (db ++ (' ' :: 'C' :: 'r' :: []))) = some (da, db) := by
    apply searchFrom_of_head
    rw [numFirst_digits p1Rest da ' ' ('-' :: ' ' :: (db ++ (' ' :: 'C' :: 'r' :: [])))
      (fun c hc => digit_dd c (h3 c hc)) h1 (by decide)]
    rw [p1Rest_dash_digits db h2 h4]
    rfl
  have hb1 : branch1 (da ++ ' ' :: '-' :: ' ' :: (db ++ (' ' :: 'C' :: 'r' :: []))) =
      some (some (((digitsVal da : ℕ) : ℚ) * 100), some (((digitsVal db : ℕ) : ℚ) * 100)) := by
    unfold branch1
    rw [hsearch]
    show (match floatOfL da, floatOfL db with
      | some low, some high =>
        if low ≤ high ∧ high < 1000 then some (some (low * 100), some (high * 100)) else none
      | _, _ => none) =
      some (some (((digitsVal da : ℕ) : ℚ) * 100), some (((digitsVal db : ℕ) : ℚ) * 100))
    rw [floatOfL_digits da h1 h3, floatOfL_digits db h2 h4]
    show (if ((digitsVal da : ℕ) : ℚ) ≤ ((digitsVal db : ℕ) : ℚ) ∧
          ((digitsVal db : ℕ) : ℚ) < 1000 then
        some (some (((digitsVal da : ℕ) : ℚ) * 100), some (((digitsVal db : ℕ) : ℚ) * 100))
      else none) = _
    rw [if_pos ⟨h5, h6⟩]
  unfold parse_price_range
  rw [if_neg hne, rawOf_input7 da db h1 h3 h4, hb1]

/-- Witness for C7 at the concrete input `"7 - 9 Cr"`. -/
theorem C7_explicit_crore_range_witness :
    parse_price_range
        (String.mk (['7'] ++ ' ' :: '-' :: ' ' :: (['9'] ++ (' ' :: 'C' :: 'r' :: [])))) =
      (some (((digitsVal ['7'] : ℕ) : ℚ) * 100), some (((digitsVal ['9'] : ℕ) : ℚ) * 100)) :=
  C7_explicit_crore_range ['7'] ['9'] (by decide) (by decide) (by decide) (by decide)
    (by decide) (by decide)

theorem p1Rest_space_L (w : List Char) : p1Rest (' ' :: 'L' :: w) = none := rfl

theorem dropLitCI_L (w : List Char) : dropLitCI ['L'] ('L' :: w) = some w := rfl

theorem dropLitCI_Lakh_sp (w : List Char) :
    dropLitCI ['L', 'a', 'k', 'h'] ('L' :: ' ' :: w) = none := rfl

theorem dropLitCI_Lac_sp (w : List Char) :
    dropLitCI ['L', 'a', 'c'] ('L' :: ' ' :: w) = none := rfl

theorem b1_fail_input8 (X Y : List Char)
    (hX : ∀ c ∈ X, c.isDigit = true) (hY : ∀ c ∈ Y, c.isDigit = true) :
    searchFrom (numFirst p1Rest)
      (X ++ ' ' :: 'L' :: ' ' :: '-' :: ' ' :: (Y ++ (' ' :: 'C' :: 'r' :: []))) = none := by
  have hYdd : ∀ c ∈ Y, isDD c = true := fun c hc => digit_dd c (hY c hc)
  have t0 : searchFrom (numFirst p1Rest) (Y ++ ' ' :: 'C' :: 'r' :: []) = none :=
    searchFrom_digits_none p1Rest Y ' ' ('C' :: 'r' :: []) hYdd (by decide) (by decide)
      (by decide)
  have t1 : searchFrom (numFirst p1Rest) (' ' :: (Y ++ ' ' :: 'C' :: 'r' :: [])) = none := by
    rw [searchFrom_cons_none _ _ _ (numFirst_head_not p1Rest ' ' _ (by decide))]
    exact t0
  have t2 : searchFrom (numFirst p1Rest)
      ('-' :: ' ' :: (Y ++ ' ' :: 'C' :: 'r' :: [])) = none := by
    rw [searchFrom_cons_none _ _ _ (numFirst_head_not p1Rest '-' _ (by decide))]
    exact t1
  have t3 : searchFrom (numFirst p1Rest)
      (' ' :: '-' :: ' ' :: (Y ++ ' ' :: 'C' :: 'r' :: [])) = none := by
    rw [searchFrom_cons_none _ _ _ (numFirst_head_not p1Rest ' ' _ (by decide))]
    exact t2
  have t4 : searchFrom (numFirst p1Rest)
      ('L' :: ' ' :: '-' :: ' ' :: (Y ++ ' ' :: 'C' :: 'r' :: [])) = none := by
    rw [searchFrom_cons_none _ _ _ (numFirst_head_not p1Rest 'L' _ (by decide))]
    exact t3
  have t5 : searchFrom (numFirst p1Rest)
      (' ' :: 'L' :: ' ' :: '-' :: ' ' :: (Y ++ ' ' :: 'C' :: 'r' :: [])) = none := by
    rw [searchFrom_cons_none _ _ _ (numFirst_head_not p1Rest ' ' _ (by decide))]
    exact t4
  exact searchFrom_digits_none p1Rest X ' '
    ('L' :: ' ' :: '-' :: ' ' :: (Y ++ ' ' :: 'C' :: 'r' :: []))
    (fun c hc => digit_dd c (hX c hc)) (by decide) (p1Rest_space_L _) t5

theorem p2AfterUnit_input8 (Y : List Char) (h2 : Y ≠ [])
    (hY : ∀ c ∈ Y, c.isDigit = true) :
    p2AfterUnit (' ' :: '-' :: ' ' :: (Y ++ (' ' :: 'C' :: 'r' :: []))) = none := by
  unfold p2AfterUnit
  rw [show skipWS (' ' :: '-' :: ' ' :: (Y ++ (' ' :: 'C' :: 'r' :: []))) =
      '-' :: ' ' :: (Y ++ (' ' :: 'C' :: 'r' :: [])) from by
    rw [skipWS_space]
    exact skipWS_not _ _ (by decide)]
  show (numFirst lUnitAfterWS (skipWS (' ' :: (Y ++ (' ' :: 'C' :: 'r' :: []))))).map
      (fun gb => gb.1) = none
  rw [skipWS_space, skipWS_digits_append Y (' ' :: 'C' :: 'r' :: []) h2 hY]
  rw [numFirst_digits lUnitAfterWS Y ' ' ('C' :: 'r' :: [])
    (fun c hc => digit_dd c (hY c hc)) h2 (by decide)]
  rw [show lUnitAfterWS (' ' :: 'C' :: 'r' :: []) = none from by decide]
  rfl

theorem p2Rest_input8 (Y : List Char) (h2 : Y ≠ [])
    (hY : ∀ c ∈ Y, c.isDigit = true) :
    p2Rest (' ' :: 'L' :: ' ' :: '-' :: ' ' :: (Y ++ (' ' :: 'C' :: 'r' :: []))) = none := by
  unfold p2Rest
  rw [show skipWS (' ' :: 'L' :: ' ' :: '-' :: ' ' :: (Y ++ (' ' :: 'C' :: 'r' :: []))) =
      'L' :: ' ' :: '-' :: ' ' :: (Y ++ (' ' :: 'C' :: 'r' :: [])) from by
    rw [skipWS_space]
    exact skipWS_not _ _ (by decide)]
  rw [show unitAltsL = ['L'] :: (['L', 'a', 'k', 'h'] :: (['L', 'a', 'c'] :: [])) from rfl]
  rw [tryAlts_cons_some _ _ _ _ _ (dropLitCI_L _) (p2AfterUnit_input8 Y h2 hY)]
  rw [tryAlts_cons_none _ _ _ _ (dropLitCI_Lakh_sp _)]
  rw [tryAlts_cons_none _ _ _ _ (dropLitCI_Lac_sp _)]
  rfl

theorem b2_fail_input8 (X Y : List Char) (h2 : Y ≠ [])
    (hX : ∀ c ∈ X, c.isDigit = true) (hY : ∀ c ∈ Y, c.isDigit = true) :
    searchFrom (numFirst p2Rest)
      (X ++ ' ' :: 'L' :: ' ' :: '-' :: ' ' :: (Y ++ (' ' :: 'C' :: 'r' :: []))) = none := by
  have hYdd : ∀ c ∈ Y, isDD c = true := fun c hc => digit_dd c (hY c hc)
  have t0 : searchFrom (numFirst p2Rest) (Y ++ ' ' :: 'C' :: 'r' :: []) = none :=
    searchFrom_digits_none p2Rest Y ' ' ('C' :: 'r' :: []) hYdd (by decide) (by decide)
      (by decide)
  have t1 : searchFrom (numFirst p2Rest) (' ' :: (Y ++ ' ' :: 'C' :: 'r' :: [])) = none := by
    rw [searchFrom_cons_none _ _ _ (numFirst_head_not p2Rest ' ' _ (by decide))]
    exact t0
  have t2 : searchFrom (numFirst p2Rest)
      ('-' :: ' ' :: (Y ++ ' ' :: 'C' :: 'r' :: [])) = none := by
    rw [searchFrom_cons_none _ _ _ (numFirst_head_not p2Rest '-' _ (by decide))]
    exact t1
  have t3 : searchFrom (numFirst p2Rest)
      (' ' :: '-' :: ' ' :: (Y ++ ' ' :: 'C' :: 'r' :: [])) = none := by
    rw [searchFrom_cons_none _ _ _ (numFirst_head_not p2Rest ' ' _ (by decide))]
    exact t2
  have t4 : searchFrom (numFirst p2Rest)
      ('L' :: ' ' :: '-' :: ' ' :: (Y ++ ' ' :: 'C' :: 'r' :: [])) = none := by
    rw [searchFrom_cons_none _ _ _ (numFirst_head_not p2Rest 'L' _ (by decide))]
    exact t3
  have t5 : searchFrom (numFirst p2Rest)
      (' ' :: 'L' :: ' ' :: '-' :: ' ' :: (Y ++ ' ' :: 'C' :: 'r' :: [])) = none := by
    rw [searchFrom_cons_none _ _ _ (numFirst_head_not p2Rest ' ' _ (by decide))]
    exact t4
  exact searchFrom_digits_none p2Rest X ' '
    ('L' :: ' ' :: '-' :: ' ' :: (Y ++ ' ' :: 'C' :: 'r' :: []))
    (fun c hc => digit_dd c (hX c hc)) (by decide) (p2Rest_input8 Y h2 hY) t5

theorem p3AfterUnit_input8 (Y : List Char) (h2 : Y ≠ [])
    (hY : ∀ c ∈ Y, c.isDigit = true) :
    p3AfterUnit (' ' :: '-' :: ' ' :: (Y ++ (' ' :: 'C' :: 'r' :: []))) = some Y := by
  unfold p3AfterUnit
  rw [show skipWS (' ' :: '-' :: ' ' :: (Y ++ (' ' :: 'C' :: 'r' :: []))) =
      '-' :: ' ' :: (Y ++ (' ' :: 'C' :: 'r' :: [])) from by
    rw [skipWS_space]
    exact skipWS_not _ _ (by decide)]
  show (numFirst crAfterWS (skipWS (' ' :: (Y ++ (' ' :: 'C' :: 'r' :: []))))).map
      (fun gb => gb.1) = some Y
  rw [skipWS_space, skipWS_digits_append Y (' ' :: 'C' :: 'r' :: []) h2 hY]
  rw [numFirst_digits crAfterWS Y ' ' ('C' :: 'r' :: [])
    (fun c hc => digit_dd c (hY c hc)) h2 (by decide)]
  rw [show crAfterWS (' ' :: 'C' :: 'r' :: []) = some () from by decide]
  rfl

theorem p3Rest_input8 (Y : List Char) (h2 : Y ≠ [])
    (hY : ∀ c ∈ Y, c.isDigit = true) :
    p3Rest (' ' :: 'L' :: ' ' :: '-' :: ' ' :: (Y ++ (' ' :: 'C' :: 'r' :: []))) = some Y := by
  unfold p3Rest
  rw [show skipWS (' ' :: 'L' :: ' ' :: '-' :: ' ' :: (Y ++ (' ' :: 'C' :: 'r' :: []))) =
      'L' :: ' ' :: '-' :: ' ' :: (Y ++ (' ' :: 'C' :: 'r' :: [])) from by
    rw [skipWS_space]
    exact skipWS_not _ _ (by decide)]
  rw [show unitAltsL = ['L'] :: (['L', 'a', 'k', 'h'] :: (['L', 'a', 'c'] :: [])) from rfl]
  exact tryAlts_cons_hit _ _ _ _ _ _ (dropLitCI_L _) (p3AfterUnit_input8 Y h2 hY)

theorem input8_chars (X Y : List Char) (h3 : ∀ c ∈ X, c.isDigit = true)
    (h4 : ∀ c ∈ Y, c.isDigit = true) :
    ∀ c ∈ X ++ ' ' :: 'L' :: ' ' :: '-' :: ' ' :: (Y ++ (' ' :: 'C' :: 'r' :: [])),
      c.isDigit = true ∨ c = ' ' ∨ c = 'L' ∨ c = '-' ∨ c = 'C' ∨ c = 'r' := by
  intro c hc
  rcases List.mem_append.mp hc with h | h
  · exact Or.inl (h3 c h)
  · rcases List.mem_cons.mp h with rfl | h
    · exact Or.inr (Or.inl rfl)
    rcases List.mem_cons.mp h with rfl | h
    · exact Or.inr (Or.inr (Or.inl rfl))
    rcases List.mem_cons.mp h with rfl | h
    · exact Or.inr (Or.inl rfl)
    rcases List.mem_cons.mp h with rfl | h
    · exact Or.inr (Or.inr (Or.inr (Or.inl rfl)))
    rcases List.mem_cons.mp h with rfl | h
    · exact Or.inr (Or.inl rfl)
    rcases List.mem_append.mp h with h | h
    · exact Or.inl (h4 c h)
    rcases List.mem_cons.mp h with rfl | h
    · exact Or.inr (Or.inl rfl)
    rcases List.mem_cons.mp h with rfl | h
    · exact Or.inr (Or.inr (Or.inr (Or.inr (Or.inl rfl))))
    rcases List.mem_cons.mp h with rfl | h
    · exact Or.inr (Or.inr (Or.inr (Or.inr (Or.inr rfl))))
    exact absurd h (List.not_mem_nil c)

theorem rawOf_input8 (X Y : List Char) (h1 : X ≠ [])
    (h3 : ∀ c ∈ X, c.isDigit = true) (h4 : ∀ c ∈ Y, c.isDigit = true) :
    rawOf (String.mk
        (X ++ ' ' :: 'L' :: ' ' :: '-' :: ' ' :: (Y ++ (' ' :: 'C' :: 'r' :: [])))) =
      X ++ ' ' :: 'L' :: ' ' :: '-' :: ' ' :: (Y ++ (' ' :: 'C' :: 'r' :: [])) := by
  have hchars := input8_chars X Y h3 h4
  refine rawOf_eq _ ?_ ?_ ?_ ?_
  · intro c hc
    rcases hchars c hc with h | rfl | rfl | rfl | rfl | rfl
    · simp only [bne_iff_ne, ne_eq]
      intro hcc
      subst hcc
      exact absurd h (by decide)
    all_goals decide
  · intro c hc
    rcases hchars c hc with h | rfl | rfl | rfl | rfl | rfl
    · simp only [bne_iff_ne, ne_eq]
      intro hcc
      subst hcc
      exact absurd h (by decide)
    all_goals decide
  · cases X with
    | nil => exact absurd rfl h1
    | cons d X' =>
      rw [List.cons_append]
      exact dropRun_not isWS d _ (digit_not_ws d (h3 d (List.mem_cons_self d X')))
  · have hsplit : X ++ ' ' :: 'L' :: ' ' :: '-' :: ' ' :: (Y ++ (' ' :: 'C' :: 'r' :: [])) =
        (X ++ ' ' :: 'L' :: ' ' :: '-' :: ' ' :: (Y ++ (' ' :: 'C' :: []))) ++ ['r'] := by
      simp
    rw [hsplit, List.reverse_append]
    exact dropRun_not isWS 'r' _ (by decide)

/-- C8: for every input of the mixed form `"X L - Y Cr"` with digit strings
`X`, `Y` whose values satisfy `X ≤ Y*100`, `parse_price_range` returns
`(X, Y*100)`: patterns 1 and 2 fail at every position (no generic branch
shadows the mixed range), and pattern 3 fires at the leftmost position. -/
theorem C8_mixed_unit_range (X Y : List Char) (h1 : X ≠ []) (h2 : Y ≠ [])
    (h3 : ∀ c ∈ X, c.isDigit = true) (h4 : ∀ c ∈ Y, c.isDigit = true)
    (h5 : ((digitsVal X : ℕ) : ℚ) ≤ ((digitsVal Y : ℕ) : ℚ) * 100) :
    parse_price_range (String.mk
        (X ++ ' ' :: 'L' :: ' ' :: '-' :: ' ' :: (Y ++ (' ' :: 'C' :: 'r' :: [])))) =
      (some ((digitsVal X : ℕ) : ℚ), some (((digitsVal Y : ℕ) : ℚ) * 100)) := by
  have hne : ¬(String.mk
      (X ++ ' ' :: 'L' :: ' ' :: '-' :: ' ' :: (Y ++ (' ' :: 'C' :: 'r' :: []))) = "") := by
    intro hc
    have hdata : X ++ ' ' :: 'L' :: ' ' :: '-' :: ' ' :: (Y ++ (' ' :: 'C' :: 'r' :: [])) =
        [] := congrArg String.data hc
    rcases List.append_eq_nil.mp hdata with ⟨-, hcons⟩
    exact List.cons_ne_nil _ _ hcons
  have hb1 : branch1
      (X ++ ' ' :: 'L' :: ' ' :: '-' :: ' ' :: (Y ++ (' ' :: 'C' :: 'r' :: []))) = none := by
    unfold branch1
    rw [b1_fail_input8 X Y h3 h4]
  have hb2 : branch2
      (X ++ ' ' :: 'L' :: ' ' :: '-' :: ' ' :: (Y ++ (' ' :: 'C' :: 'r' :: []))) = none := by
    unfold branch2
    rw [show (fun r => p2Rest r) = p2Rest from rfl]
    rw [b2_fail_input8 X Y h2 h3 h4]
  have hs3 : searchFrom (numFirst p3Rest)
      (X ++ ' ' :: 'L' :: ' ' :: '-' :: ' ' :: (Y ++ (' ' :: 'C' :: 'r' :: []))) =
      some (X, Y) := by
    apply searchFrom_of_head
    rw [numFirst_digits p3Rest X ' '
      ('L' :: ' ' :: '-' :: ' ' :: (Y ++ (' ' :: 'C' :: 'r' :: [])))
      (fun c hc => digit_dd c (h3 c hc)) h1 (by decide)]
    rw [p3Rest_input8 Y h2 h4]
    rfl
  have hb3 : branch3
      (X ++ ' ' :: 'L' :: ' ' :: '-' :: ' ' :: (Y ++ (' ' :: 'C' :: 'r' :: []))) =
      some (some ((digitsVal X : ℕ) : ℚ), some (((digitsVal Y : ℕ) : ℚ) * 100)) := by
    unfold branch3
    rw [show (fun r => p3Rest r) = p3Rest from rfl]
    rw [hs3]
    show (match floatOfL X, floatOfL Y with
      | some low, some high2 =>
        if low ≤ high2 * 100 then some (some low, some (high2 * 100)) else none
      | _, _ => none) =
      some (some ((digitsVal X : ℕ) : ℚ), some (((digitsVal Y : ℕ) : ℚ) * 100))
    rw [floatOfL_digits X h1 h3, floatOfL_digits Y h2 h4]
    show (if ((digitsVal X : ℕ) : ℚ) ≤ ((digitsVal Y : ℕ) : ℚ) * 100 then
        some (some ((digitsVal X : ℕ) : ℚ), some (((digitsVal Y : ℕ) : ℚ) * 100))
      else none) = _
    rw [if_pos h5]
  unfold parse_price_range
  rw [if_neg hne, rawOf_input8 X Y h1 h3 h4, hb1, hb2, hb3]

/-- Witness for C8 at the concrete input `"71 L - 2 Cr"`. -/
theorem C8_mixed_unit_range_witness :
    parse_price_range (String.mk
        (['7', '1'] ++ ' ' :: 'L' :: ' ' :: '-' :: ' ' ::
          (['2'] ++ (' ' :: 'C' :: 'r' :: [])))) =
      (some ((digitsVal ['7', '1'] : ℕ) : ℚ),
        some (((digitsVal ['2'] : ℕ) : ℚ) * 100)) :=
  C8_mixed_unit_range ['7', '1'] ['2'] (by decide) (by decide) (by decide) (by decide)
    (by decide)
